import Mathlib

/- Verification of the LiteDB-Go file-backed document store (src/main.go).
   The Go code is shallowly embedded: the filesystem is a flat map from
   path strings to entries, `filepath.Clean` and `filepath.Join` are
   reimplemented from the Go path algorithm, and each driver operation is a
   pure state-passing function returning its error, the new driver state,
   the new filesystem and a trace of lock / io events. -/

set_option autoImplicit false

deriving instance DecidableEq for Except

namespace LiteDB

/-! ## Path model: Go `filepath.Clean`, `filepath.Join`, `filepath.Dir` -/

/-- Split a character list at every slash character. The result always has
at least one (possibly empty) segment, e.g. `a/b` to `[a, b]`. -/
def splitSlash : List Char → List (List Char)
  | [] => [[]]
  | c :: rest =>
    match splitSlash rest with
    | [] => [[]]
    | s :: ss => if c = '/' then [] :: s :: ss else (c :: s) :: ss

/-- One step of Go `filepath.Clean` element processing: skip empty and
dot elements, let dot-dot pop the stack (or survive at the front of a
relative path; at the root of an absolute path it vanishes), push
anything else. The stack is kept reversed. -/
def cleanStep (rooted : Bool) (stack : List (List Char)) (comp : List Char) : List (List Char) :=
  if comp = [] ∨ comp = ['.'] then stack
  else if comp = ['.', '.'] then
    match stack with
    | [] => if rooted then [] else [['.', '.']]
    | top :: rest => if top = ['.', '.'] then comp :: stack else rest
  else comp :: stack

def cleanComps (rooted : Bool) (l : List (List Char)) : List (List Char) :=
  (l.foldl (cleanStep rooted) []).reverse

/-- Interleave a single slash between path components. -/
def interSlash : List (List Char) → List Char
  | [] => []
  | [c] => c
  | c :: c2 :: rest => c ++ '/' :: interSlash (c2 :: rest)

/-- Go `filepath.Clean` on a character list. -/
def goCleanL (l : List Char) : List Char :=
  if l = [] then ['.']
  else
    let rooted := l.head? == some '/'
    let comps := cleanComps rooted (splitSlash l)
    if rooted then '/' :: interSlash comps
    else if comps = [] then ['.'] else interSlash comps

/-- Go `filepath.Clean`. -/
def goClean (s : String) : String := String.mk (goCleanL s.data)

/-- `strings.Join` with the path separator, as used by `filepath.Join`. -/
def interStr : List String → String
  | [] => ""
  | [a] => a
  | a :: b :: rest => a ++ "/" ++ interStr (b :: rest)

/-- Go `filepath.Join`: drop leading empty elements, join the remainder
with slashes and clean the result; all-empty input gives the empty string. -/
def goJoin (elems : List String) : String :=
  match elems.dropWhile (fun e => e == "") with
  | [] => ""
  | l => goClean (interStr l)

/-- Go `filepath.Dir`: everything up to the final slash, cleaned. -/
def dirOf (s : String) : String :=
  goClean (String.mk ((s.data.reverse.dropWhile (fun c => c != '/')).reverse))

/-! ## Filesystem model -/

/-- A filesystem entry: a directory or a regular file with its content. -/
inductive Entry where
  | dir
  | file (content : String)
  deriving DecidableEq, Repr

/-- Errors of the modelled `os` filesystem layer. `permission` models
fault injection (e.g. EACCES) at the paths listed in `FS.errPaths`. -/
inductive OsErr where
  | notExist (path : String)
  | permission (path : String)
  | isDirE (path : String)
  | notDirE (path : String)
  | alreadyExists (path : String)
  | notEmpty (path : String)
  | noFuel
  deriving DecidableEq, Repr

/-- Go `os.IsNotExist`. -/
def OsErr.isNotExist : OsErr → Bool
  | .notExist _ => true
  | _ => false

/-- A flat filesystem: entries keyed by path strings, plus a fault
injection set of paths at which stat, read and remove operations fail
with a permission error. -/
structure FS where
  entries : List (String × Entry)
  errPaths : List String
  deriving DecidableEq, Repr

def lookupFS (fs : FS) (p : String) : Option Entry :=
  (fs.entries.find? (fun x => x.1 == p)).map (fun x => x.2)

def insertFS (fs : FS) (p : String) (e : Entry) : FS :=
  ⟨(p, e) :: fs.entries.filter (fun x => x.1 != p), fs.errPaths⟩

def removeKeyFS (fs : FS) (p : String) : FS :=
  ⟨fs.entries.filter (fun x => x.1 != p), fs.errPaths⟩

/-- Go `os.Stat`. -/
def osStat (fs : FS) (p : String) : Except OsErr Entry :=
  if fs.errPaths.contains p then .error (.permission p)
  else
    match lookupFS fs p with
    | some e => .ok e
    | none => .error (.notExist p)

/-- The Go helper `stat`: probe the bare path, and on a not-exist error
probe the extension-qualified path instead. -/
def statPath (fs : FS) (p : String) : Except OsErr Entry :=
  match osStat fs p with
  | .ok fi => .ok fi
  | .error e => if e.isNotExist then osStat fs (p ++ ".json") else .error e

/-- Go `ioutil.ReadFile`. -/
def readFileFS (fs : FS) (p : String) : Except OsErr String :=
  if fs.errPaths.contains p then .error (.permission p)
  else
    match lookupFS fs p with
    | some (.file b) => .ok b
    | some .dir => .error (.isDirE p)
    | none => .error (.notExist p)

/-- Does `p` name a directory? The roots `.` and `/` always exist. -/
def isDirFS (fs : FS) (p : String) : Bool :=
  p == "." || p == "/" || lookupFS fs p == some .dir

/-- Go `ioutil.WriteFile`: create or truncate the file; fails if the path
is a directory or the parent directory is missing. -/
def writeFileFS (fs : FS) (p : String) (b : String) : Except OsErr FS :=
  if lookupFS fs p == some .dir then .error (.isDirE p)
  else if !isDirFS fs (dirOf p) then .error (.notExist (dirOf p))
  else .ok (insertFS fs p (.file b))

/-- Go `os.Mkdir`: single-level directory creation; fails if something
already exists at the path or the parent directory is missing. -/
def mkdirFS (fs : FS) (p : String) : Except OsErr FS :=
  match lookupFS fs p with
  | some _ => .error (.alreadyExists p)
  | none =>
    if !isDirFS fs (dirOf p) then .error (.notExist (dirOf p))
    else .ok (insertFS fs p .dir)

/-- Go `os.MkdirAll`: create the directory and any missing ancestors;
succeeds when a directory already exists, fails on a file in the way.
The fuel bounds the ancestor recursion (callers pass the path length plus
two, which always suffices). On failure the filesystem keeps any ancestor
directories already created. -/
def mkdirAllFS : Nat → FS → String → Option OsErr × FS
  | 0, fs, _ => (some .noFuel, fs)
  | fuel + 1, fs, p =>
    if p = "." ∨ p = "/" then (none, fs)
    else
      match lookupFS fs p with
      | some .dir => (none, fs)
      | some (.file _) => (some (.notDirE p), fs)
      | none =>
        let parent := dirOf p
        if parent = p then
          match mkdirFS fs p with
          | .error e => (some e, fs)
          | .ok fs1 => (none, fs1)
        else
          match mkdirAllFS fuel fs parent with
          | (some e, fs1) => (some e, fs1)
          | (none, fs1) =>
            match mkdirFS fs1 p with
            | .error e => (some e, fs1)
            | .ok fs2 => (none, fs2)

/-- Go `os.Rename`: move the entry at `src` over `dst`; overwriting an
existing directory fails. -/
def renameFS (fs : FS) (src dst : String) : Except OsErr FS :=
  match lookupFS fs src with
  | none => .error (.notExist src)
  | some e =>
    match lookupFS fs dst with
    | some .dir => .error (.isDirE dst)
    | _ => .ok (insertFS (removeKeyFS fs src) dst e)

/-- Insertion sort on strings; `ioutil.ReadDir` returns names sorted. -/
def insertSorted (s : String) : List String → List String
  | [] => [s]
  | t :: rest => if s ≤ t then s :: t :: rest else t :: insertSorted s rest

def sortStrings : List String → List String
  | [] => []
  | s :: rest => insertSorted s (sortStrings rest)

/-- Is `p` strictly below directory `dirP` (i.e. `dirP ++ "/"` begins it)? -/
def underDir (dirP p : String) : Bool :=
  (dirP ++ "/").data.isPrefixOf p.data

/-- The name of `p` as a direct child of directory `dirP`, when it is one. -/
def childNameOf (dirP p : String) : Option String :=
  if underDir dirP p then
    let rest := p.data.drop (dirP.data.length + 1)
    if rest.isEmpty || rest.contains '/' then none else some (String.mk rest)
  else none

/-- The names of the entries directly inside directory `dirP`. -/
def childNames (fs : FS) (dirP : String) : List String :=
  fs.entries.filterMap (fun x => childNameOf dirP x.1)

/-- Go `ioutil.ReadDir`: list the entry names of the directory, sorted. -/
def readDirFS (fs : FS) (dirP : String) : Except OsErr (List String) :=
  if fs.errPaths.contains dirP then .error (.permission dirP)
  else
    match lookupFS fs dirP with
    | some .dir => .ok (sortStrings (childNames fs dirP))
    | some (.file _) => .error (.notDirE dirP)
    | none => .error (.notExist dirP)

/-- Go `os.RemoveAll`: remove the path and everything below it. -/
def removeAllFS (fs : FS) (p : String) : Except OsErr FS :=
  if fs.errPaths.contains p then .error (.permission p)
  else .ok ⟨fs.entries.filter (fun x => !(x.1 == p || underDir p x.1)), fs.errPaths⟩

/-- Go `os.Remove`: remove a file or an empty directory. -/
def removeFS (fs : FS) (p : String) : Except OsErr FS :=
  if fs.errPaths.contains p then .error (.permission p)
  else
    match lookupFS fs p with
    | none => .error (.notExist p)
    | some (.file _) => .ok (removeKeyFS fs p)
    | some .dir =>
      if childNames fs p ≠ [] then .error (.notEmpty p) else .ok (removeKeyFS fs p)

/-! ## The driver -/

/-- Database error taxonomy as distinguishable in the Go code: the
validation messages, the not-found message built by `Delete`, propagated
`os` errors, and JSON encode / decode failures. -/
inductive DbErr where
  | validation (msg : String)
  | notFound (msg : String)
  | osFail (e : OsErr)
  | marshalFail
  | unmarshalFail
  deriving DecidableEq, Repr

/-- Lock and filesystem events, for stating when an operation touches the
global registry lock, a per-collection lock, or the disk. -/
inductive Ev where
  | lockGlobal
  | regAccess (c : String)
  | unlockGlobal
  | lockColl (c : String)
  | unlockColl (c : String)
  | ioStat (p : String)
  | ioMkdirAll (p : String)
  | ioMkdir (p : String)
  | ioWriteFile (p : String)
  | ioRename (src dst : String)
  | ioReadFile (p : String)
  | ioReadDir (p : String)
  | ioRemoveAll (p : String)
  | ioRemove (p : String)
  deriving DecidableEq, Repr

/-- The JSON layer, kept parametric over the stored value type: `marshal`
models `json.MarshalIndent` and `unmarshal` models `json.Unmarshal`. -/
structure Codec (V : Type) where
  marshal : V → Option String
  unmarshal : String → Option V

/-- The `Driver` struct: the cleaned root directory and the lazily filled
per-collection mutex registry. A mutex is identified by the number it
received on creation; `nextId` is the next fresh number. -/
structure Driver where
  dir : String
  mutexes : List (String × Nat)
  nextId : Nat
  deriving DecidableEq, Repr

def lookupReg (reg : List (String × Nat)) (c : String) : Option Nat :=
  (reg.find? (fun x => x.1 == c)).map (fun x => x.2)

/-- `Driver.getOrCreateMutex`: look up or lazily create the per-collection
mutex; the whole lookup-or-create runs under the global registry mutex. -/
def Driver.getOrCreateMutex (d : Driver) (collection : String) : Nat × Driver × List Ev :=
  match lookupReg d.mutexes collection with
  | some i => (i, d, [.lockGlobal, .regAccess collection, .unlockGlobal])
  | none =>
    (d.nextId, ⟨d.dir, (collection, d.nextId) :: d.mutexes, d.nextId + 1⟩,
      [.lockGlobal, .regAccess collection, .unlockGlobal])

def collectionEmptyMsg : String := "collection name cannot be empty"

def resourceEmptyMsg : String := "resource name cannot be empty"

/-- A single-quote character, written by code point to keep the source
free of quote-in-string escapes. -/
def sq : String := String.singleton (Char.ofNat 39)

/-- The message of the Go `fmt.Errorf` in `Delete`, with the resource and
collection names singly quoted as in the source format string. -/
def deleteNotFoundMsg (resource collection : String) : String :=
  "resource " ++ sq ++ resource ++ sq ++ " does not exist in collection "
    ++ sq ++ collection ++ sq

/-- `New`: clean the root path; keep the filesystem untouched when
something already exists there, otherwise create the directory with a
single-level `os.Mkdir`. (The logger wiring is peripheral and omitted.) -/
def newDriver (dirStr : String) (fs : FS) : Driver × Option OsErr × FS × List Ev :=
  let dir := goClean dirStr
  let d : Driver := ⟨dir, [], 0⟩
  match osStat fs dir with
  | .ok _ => (d, none, fs, [.ioStat dir])
  | .error _ =>
    match mkdirFS fs dir with
    | .error e => (d, some e, fs, [.ioStat dir, .ioMkdir dir])
    | .ok fs1 => (d, none, fs1, [.ioStat dir, .ioMkdir dir])

/-- `Driver.Write`. -/
def Driver.write {V : Type} (C : Codec V) (d : Driver) (fs : FS)
    (collection resource : String) (v : V) : Option DbErr × Driver × FS × List Ev :=
  if collection = "" then (some (.validation collectionEmptyMsg), d, fs, [])
  else if resource = "" then (some (.validation resourceEmptyMsg), d, fs, [])
  else
    match d.getOrCreateMutex collection with
    | (_, d1, tr0) =>
      let tr := tr0 ++ [.lockColl collection]
      let dirP := goJoin [d1.dir, collection]
      let fnlPath := goJoin [dirP, resource ++ ".json"]
      let tempPath := fnlPath ++ ".tmp"
      match mkdirAllFS (dirP.length + 2) fs dirP with
      | (some e, fs1) =>
        (some (.osFail e), d1, fs1, tr ++ [.ioMkdirAll dirP, .unlockColl collection])
      | (none, fs1) =>
        match C.marshal v with
        | none => (some .marshalFail, d1, fs1, tr ++ [.ioMkdirAll dirP, .unlockColl collection])
        | some s =>
          match writeFileFS fs1 tempPath (s ++ "\n") with
          | .error e =>
            (some (.osFail e), d1, fs1,
              tr ++ [.ioMkdirAll dirP, .ioWriteFile tempPath, .unlockColl collection])
          | .ok fs2 =>
            match renameFS fs2 tempPath fnlPath with
            | .error e =>
              (some (.osFail e), d1, fs2,
                tr ++ [.ioMkdirAll dirP, .ioWriteFile tempPath,
                  .ioRename tempPath fnlPath, .unlockColl collection])
            | .ok fs3 =>
              (none, d1, fs3,
                tr ++ [.ioMkdirAll dirP, .ioWriteFile tempPath,
                  .ioRename tempPath fnlPath, .unlockColl collection])

/-- `Driver.Read`. Reads are not lock-protected in the source. -/
def Driver.read {V : Type} (C : Codec V) (d : Driver) (fs : FS)
    (collection resource : String) : Except DbErr V × List Ev :=
  if collection = "" then (.error (.validation collectionEmptyMsg), [])
  else if resource = "" then (.error (.validation resourceEmptyMsg), [])
  else
    let record := goJoin [d.dir, collection, resource]
    match statPath fs record with
    | .error e => (.error (.osFail e), [.ioStat record])
    | .ok _ =>
      match readFileFS fs (record ++ ".json") with
      | .error e => (.error (.osFail e), [.ioStat record, .ioReadFile (record ++ ".json")])
      | .ok b =>
        match C.unmarshal b with
        | none => (.error .unmarshalFail, [.ioStat record, .ioReadFile (record ++ ".json")])
        | some v => (.ok v, [.ioStat record, .ioReadFile (record ++ ".json")])

/-- The read loop of `ReadAll`, aborting at the first failing file. -/
def readLoop (fs : FS) (dirP : String) : List String → Except OsErr (List String)
  | [] => .ok []
  | n :: rest =>
    match readFileFS fs (goJoin [dirP, n]) with
    | .error e => .error e
    | .ok b =>
      match readLoop fs dirP rest with
      | .error e => .error e
      | .ok records => .ok (b :: records)

/-- `Driver.ReadAll`: raw serialized records. The `ReadDir` error is
discarded exactly as in the source (`files, _ := ioutil.ReadDir(dir)`). -/
def Driver.readAll (d : Driver) (fs : FS) (collection : String) :
    Except DbErr (List String) × List Ev :=
  if collection = "" then (.error (.validation collectionEmptyMsg), [])
  else
    let dirP := goJoin [d.dir, collection]
    match statPath fs dirP with
    | .error e => (.error (.osFail e), [.ioStat dirP])
    | .ok _ =>
      let files :=
        match readDirFS fs dirP with
        | .ok l => l
        | .error _ => []
      match readLoop fs dirP files with
      | .error e => (.error (.osFail e), [.ioStat dirP, .ioReadDir dirP])
      | .ok records => (.ok records, [.ioStat dirP, .ioReadDir dirP])

/-- `Driver.Delete`: an empty resource deletes the whole collection
directory; a directory target is removed recursively, a regular file
target removes the extension-qualified file. -/
def Driver.delete (d : Driver) (fs : FS) (collection resource : String) :
    Option DbErr × Driver × FS × List Ev :=
  if collection = "" then (some (.validation collectionEmptyMsg), d, fs, [])
  else
    let path := goJoin [collection, resource]
    match d.getOrCreateMutex collection with
    | (_, d1, tr0) =>
      let tr := tr0 ++ [.lockColl collection]
      let dirP := goJoin [d1.dir, path]
      match statPath fs dirP with
      | .error _ =>
        (some (.notFound (deleteNotFoundMsg resource collection)), d1, fs,
          tr ++ [.ioStat dirP, .unlockColl collection])
      | .ok .dir =>
        match removeAllFS fs dirP with
        | .error e =>
          (some (.osFail e), d1, fs,
            tr ++ [.ioStat dirP, .ioRemoveAll dirP, .unlockColl collection])
        | .ok fs1 =>
          (none, d1, fs1, tr ++ [.ioStat dirP, .ioRemoveAll dirP, .unlockColl collection])
      | .ok (.file _) =>
        match removeFS fs (dirP ++ ".json") with
        | .error e =>
          (some (.osFail e), d1, fs,
            tr ++ [.ioStat dirP, .ioRemove (dirP ++ ".json"), .unlockColl collection])
        | .ok fs1 =>
          (none, d1, fs1,
            tr ++ [.ioStat dirP, .ioRemove (dirP ++ ".json"), .unlockColl collection])

/-- Decimal digits of a natural number (fuel-based helper). -/
def natToDigits : Nat → Nat → List Char
  | 0, _ => []
  | fuel + 1, n =>
    if n < 10 then [Char.ofNat (48 + n)]
    else natToDigits fuel (n / 10) ++ [Char.ofNat (48 + n % 10)]

/-- A concrete codec on natural numbers for witnesses: `marshal` renders
the decimal numeral (as `MarshalIndent` does for a JSON number) and
`unmarshal` parses it back, tolerating trailing newlines. -/
def natCodec : Codec Nat where
  marshal := fun n => some (String.mk (natToDigits (n + 1) n))
  unmarshal := fun s =>
    let l := (s.data.reverse.dropWhile (fun c => c == '\n')).reverse
    if l.isEmpty || !(l.all (fun c => c.isDigit)) then none
    else some (l.foldl (fun acc c => acc * 10 + (c.toNat - 48)) 0)

/-! ## String and path lemmas -/

theorem str_eq_iff_data {a b : String} : a = b ↔ a.data = b.data := by
  constructor
  · intro h; rw [h]
  · intro h; cases a; cases b; exact congrArg String.mk h

theorem data_append (a b : String) : (a ++ b).data = a.data ++ b.data := by
  cases a; cases b; rfl

theorem string_append_assoc (a b c : String) : a ++ b ++ c = a ++ (b ++ c) := by
  rw [str_eq_iff_data]; simp [data_append]

theorem splitSlash_ne_nil (l : List Char) : splitSlash l ≠ [] := by
  induction l with
  | nil => simp [splitSlash]
  | cons c rest ih =>
    obtain ⟨t, ts, h⟩ : ∃ t ts, splitSlash rest = t :: ts := by
      cases hh : splitSlash rest
      · exact absurd hh ih
      · exact ⟨_, _, rfl⟩
    simp only [splitSlash, h]
    split <;> simp

theorem splitSlash_eq_cons (l : List Char) : ∃ t ts, splitSlash l = t :: ts := by
  cases hh : splitSlash l
  · exact absurd hh (splitSlash_ne_nil l)
  · exact ⟨_, _, rfl⟩

theorem splitSlash_append (xs ys : List Char) :
    splitSlash (xs ++ '/' :: ys) = splitSlash xs ++ splitSlash ys := by
  induction xs with
  | nil =>
    obtain ⟨t, ts, h⟩ := splitSlash_eq_cons ys
    simp [splitSlash, h]
  | cons c xs ih =>
    obtain ⟨t, ts, h⟩ := splitSlash_eq_cons xs
    simp only [List.cons_append, splitSlash, List.append_eq, ih, h]
    split <;> simp

theorem splitSlash_no_slash (l : List Char) (h : '/' ∉ l) : splitSlash l = [l] := by
  induction l with
  | nil => rfl
  | cons c rest ih =>
    have hc : ¬ (c = '/') := fun hh => h (hh ▸ List.mem_cons_self c rest)
    have hr := ih (fun hm => h (List.mem_cons_of_mem c hm))
    simp [splitSlash, hr, hc]

theorem mem_splitSlash_no_slash (l : List Char) :
    ∀ s ∈ splitSlash l, '/' ∉ s := by
  induction l with
  | nil =>
    intro s hs
    simp [splitSlash] at hs
    simp [hs]
  | cons c rest ih =>
    intro s hs
    obtain ⟨t, ts, h⟩ := splitSlash_eq_cons rest
    by_cases hc : c = '/'
    · simp only [splitSlash, h, if_pos hc, List.mem_cons] at hs
      rcases hs with hs | hs | hs
      · simp [hs]
      · rw [hs]; exact ih t (h ▸ List.mem_cons_self t ts)
      · exact ih s (h ▸ List.mem_cons_of_mem t hs)
    · simp only [splitSlash, h, if_neg hc, List.mem_cons] at hs
      rcases hs with hs | hs
      · subst hs
        intro hm
        rcases List.mem_cons.mp hm with hm | hm
        · exact hc hm.symm
        · exact ih t (h ▸ List.mem_cons_self t ts) hm
      · exact ih s (h ▸ List.mem_cons_of_mem t hs)

/-! ## Normal forms of cleaned paths -/

def dotdot : List Char := ['.', '.']

/-- A path component that `cleanStep` always pushes: nonempty, not a dot,
not a dot-dot, slash-free. -/
def plainComp (s : List Char) : Prop :=
  s ≠ [] ∧ s ≠ ['.'] ∧ s ≠ ['.', '.'] ∧ '/' ∉ s

/-- The invariant of the `cleanStep` stack: plain components on top of a
run of dot-dots (which is empty for rooted paths). -/
def NormStack (rooted : Bool) (S : List (List Char)) : Prop :=
  ∃ gens k, S = gens ++ List.replicate k dotdot ∧
    (∀ s ∈ gens, plainComp s) ∧ (rooted = true → k = 0)

/-- Components in cleaned order: a run of dot-dots (empty when rooted)
followed by plain components. -/
def NormComps (rooted : Bool) (comps : List (List Char)) : Prop :=
  ∃ k gens, comps = List.replicate k dotdot ++ gens ∧
    (∀ s ∈ gens, plainComp s) ∧ (rooted = true → k = 0)

theorem cleanStep_plain (rooted : Bool) (S : List (List Char)) (comp : List Char)
    (h : plainComp comp) : cleanStep rooted S comp = comp :: S := by
  obtain ⟨h1, h2, h3, _⟩ := h
  unfold cleanStep
  rw [if_neg (by simp [h1, h2]), if_neg h3]

theorem cleanStep_norm (rooted : Bool) (S : List (List Char)) (comp : List Char)
    (hS : NormStack rooted S) (hcomp : '/' ∉ comp) :
    NormStack rooted (cleanStep rooted S comp) := by
  by_cases hskip : comp = [] ∨ comp = ['.']
  · rw [show cleanStep rooted S comp = S from by unfold cleanStep; rw [if_pos hskip]]
    exact hS
  · by_cases hdd : comp = ['.', '.']
    · obtain ⟨gens, k, rfl, hg, hr⟩ := hS
      have hstep : cleanStep rooted (gens ++ List.replicate k dotdot) comp =
          match gens ++ List.replicate k dotdot with
          | [] => if rooted then [] else [['.', '.']]
          | top :: rest =>
            if top = ['.', '.'] then comp :: (gens ++ List.replicate k dotdot) else rest := by
        unfold cleanStep
        rw [if_neg hskip, if_pos hdd]
      rw [hstep]
      cases gens with
      | nil =>
        cases k with
        | zero =>
          simp only [List.nil_append, List.replicate]
          cases rooted with
          | false => exact ⟨[], 1, by simp [dotdot, List.replicate], by simp, by simp⟩
          | true => exact ⟨[], 0, by simp, by simp, fun _ => rfl⟩
        | succ k2 =>
          simp only [List.nil_append, List.replicate_succ]
          rw [if_pos (by simp [dotdot])]
          refine ⟨[], k2 + 2, ?_, by simp, ?_⟩
          · simp [hdd, List.replicate_succ, dotdot]
          · intro hroot
            exact absurd (hr hroot) (Nat.succ_ne_zero k2)
      | cons g gs =>
        simp only [List.cons_append]
        rw [if_neg (fun hh => (hg g (List.mem_cons_self g gs)).2.2.1 hh)]
        exact ⟨gs, k, rfl, fun s hs => hg s (List.mem_cons_of_mem g hs), hr⟩
    · have hplain : plainComp comp :=
        ⟨fun hh => hskip (Or.inl hh), fun hh => hskip (Or.inr hh), hdd, hcomp⟩
      rw [cleanStep_plain rooted S comp hplain]
      obtain ⟨gens, k, rfl, hg, hr⟩ := hS
      refine ⟨comp :: gens, k, rfl, ?_, hr⟩
      intro s hs
      rcases List.mem_cons.mp hs with hs | hs
      · exact hs ▸ hplain
      · exact hg s hs

theorem foldl_cleanStep_norm (rooted : Bool) (A : List (List Char))
    (hA : ∀ s ∈ A, '/' ∉ s) (S : List (List Char)) (hS : NormStack rooted S) :
    NormStack rooted (A.foldl (cleanStep rooted) S) := by
  induction A generalizing S with
  | nil => exact hS
  | cons a A ih =>
    exact ih (fun s hs => hA s (List.mem_cons_of_mem a hs)) _
      (cleanStep_norm rooted S a hS (hA a (List.mem_cons_self a A)))

theorem cleanComps_norm (rooted : Bool) (l : List Char) :
    NormComps rooted (cleanComps rooted (splitSlash l)) := by
  obtain ⟨gens, k, hS, hg, hr⟩ :=
    foldl_cleanStep_norm rooted (splitSlash l) (mem_splitSlash_no_slash l) []
      ⟨[], 0, rfl, by simp, fun _ => rfl⟩
  refine ⟨k, gens.reverse, ?_, fun s hs => hg s (List.mem_reverse.mp hs), hr⟩
  simp [cleanComps, hS, List.reverse_append, List.reverse_replicate]

theorem normComps_good (rooted : Bool) (comps : List (List Char))
    (h : NormComps rooted comps) :
    ∀ s ∈ comps, s ≠ [] ∧ s ≠ ['.'] ∧ '/' ∉ s := by
  obtain ⟨k, gens, rfl, hg, _⟩ := h
  intro s hs
  rcases List.mem_append.mp hs with hs | hs
  · rw [List.eq_of_mem_replicate hs]
    refine ⟨by simp [dotdot], by simp [dotdot], by simp [dotdot]⟩
  · obtain ⟨h1, h2, _, h4⟩ := hg s hs
    exact ⟨h1, h2, h4⟩

theorem cleanStep_dotdot_stack (j : Nat) :
    cleanStep false (List.replicate j dotdot) dotdot = List.replicate (j + 1) dotdot := by
  cases j with
  | zero =>
    unfold cleanStep
    rw [if_neg (by simp [dotdot]), if_pos (by simp [dotdot])]
    simp [List.replicate, dotdot]
  | succ j2 =>
    unfold cleanStep
    rw [if_neg (by simp [dotdot]), if_pos (by simp [dotdot])]
    simp only [List.replicate_succ]
    rw [if_pos (by simp [dotdot])]

theorem foldl_cleanStep_replicate_aux (k : Nat) :
    ∀ j, (List.replicate k dotdot).foldl (cleanStep false) (List.replicate j dotdot) =
      List.replicate (k + j) dotdot := by
  induction k with
  | zero => intro j; simp
  | succ k2 ih =>
    intro j
    rw [List.replicate_succ, List.foldl_cons, cleanStep_dotdot_stack j, ih (j + 1)]
    congr 1
    omega

theorem foldl_cleanStep_replicate (rooted : Bool) (k : Nat) (hr : rooted = true → k = 0) :
    (List.replicate k dotdot).foldl (cleanStep rooted) [] = List.replicate k dotdot := by
  cases rooted with
  | false =>
    have := foldl_cleanStep_replicate_aux k 0
    simpa using this
  | true => rw [hr rfl]; simp

theorem foldl_cleanStep_plain_push (rooted : Bool) (gens : List (List Char))
    (h : ∀ s ∈ gens, plainComp s) :
    ∀ S, gens.foldl (cleanStep rooted) S = gens.reverse ++ S := by
  induction gens with
  | nil => intro S; simp
  | cons g gs ih =>
    intro S
    rw [List.foldl_cons, cleanStep_plain rooted S g (h g (List.mem_cons_self g gs)),
      ih (fun s hs => h s (List.mem_cons_of_mem g hs)) (g :: S)]
    simp

theorem cleanComps_of_norm (rooted : Bool) (comps : List (List Char))
    (h : NormComps rooted comps) : cleanComps rooted comps = comps := by
  obtain ⟨k, gens, rfl, hg, hr⟩ := h
  unfold cleanComps
  rw [List.foldl_append, foldl_cleanStep_replicate rooted k hr,
    foldl_cleanStep_plain_push rooted gens hg _]
  simp [List.reverse_append, List.reverse_replicate]

/-! ## Rendering cleaned components and idempotence of `goClean` -/

theorem interSlash_append_single (l : List (List Char)) (n : List Char) (hl : l ≠ []) :
    interSlash (l ++ [n]) = interSlash l ++ '/' :: n := by
  induction l with
  | nil => exact absurd rfl hl
  | cons c cs ih =>
    cases cs with
    | nil => simp [interSlash]
    | cons c2 rest =>
      have hrec := ih (by simp)
      show c ++ '/' :: interSlash ((c2 :: rest) ++ [n]) = (c ++ '/' :: interSlash (c2 :: rest)) ++ '/' :: n
      rw [hrec]
      simp

theorem interSlash_good (c : List Char) (cs : List (List Char))
    (h : ∀ s ∈ c :: cs, s ≠ [] ∧ s ≠ ['.'] ∧ '/' ∉ s) :
    interSlash (c :: cs) ≠ [] ∧ interSlash (c :: cs) ≠ ['.'] ∧ interSlash (c :: cs) ≠ ['/'] := by
  obtain ⟨hc1, hc2, hc3⟩ := h c (List.mem_cons_self c cs)
  obtain ⟨ch, ctl, rfl⟩ : ∃ ch ctl, c = ch :: ctl := by
    cases c with
    | nil => exact absurd rfl hc1
    | cons ch ctl => exact ⟨ch, ctl, rfl⟩
  have hch : ch ≠ '/' := fun hh => hc3 (hh ▸ List.mem_cons_self ch ctl)
  cases cs with
  | nil =>
    refine ⟨by simp [interSlash], ?_, ?_⟩
    · simpa [interSlash] using hc2
    · simp only [interSlash]
      intro hh
      have : ch = '/' := by simpa using congrArg (fun l => l.head?) hh
      exact hch this
  | cons c2 rest =>
    refine ⟨by simp [interSlash], ?_, ?_⟩
    · intro hh
      simp only [interSlash] at hh
      have hlen := congrArg List.length hh
      simp [List.length_append] at hlen
    · intro hh
      simp only [interSlash] at hh
      have hlen := congrArg List.length hh
      simp [List.length_append] at hlen

theorem interSlash_head (c : List Char) (cs : List (List Char)) (hc : c ≠ []) :
    (interSlash (c :: cs)).head? = c.head? := by
  obtain ⟨ch, ctl, rfl⟩ : ∃ ch ctl, c = ch :: ctl := by
    cases c with
    | nil => exact absurd rfl hc
    | cons ch ctl => exact ⟨ch, ctl, rfl⟩
  cases cs with
  | nil => rfl
  | cons c2 rest => rfl

theorem splitSlash_interSlash (c : List Char) (cs : List (List Char))
    (h : ∀ s ∈ c :: cs, '/' ∉ s) :
    splitSlash (interSlash (c :: cs)) = c :: cs := by
  induction cs generalizing c with
  | nil => exact splitSlash_no_slash c (h c (List.mem_cons_self c []))
  | cons c2 rest ih =>
    show splitSlash (c ++ '/' :: interSlash (c2 :: rest)) = _
    rw [splitSlash_append, splitSlash_no_slash c (h c (List.mem_cons_self c (c2 :: rest))),
      ih c2 (fun s hs => h s (List.mem_cons_of_mem c hs))]
    rfl

theorem splitSlash_cons_slash (l : List Char) : splitSlash ('/' :: l) = [] :: splitSlash l := by
  obtain ⟨t, ts, h⟩ := splitSlash_eq_cons l
  simp [splitSlash, h]

/-- The final rendering step of `goCleanL`. -/
def renderPath (rooted : Bool) (comps : List (List Char)) : List Char :=
  if rooted then '/' :: interSlash comps
  else if comps = [] then ['.'] else interSlash comps

theorem goCleanL_eq (l : List Char) (hl : l ≠ []) :
    goCleanL l =
      renderPath (l.head? == some '/') (cleanComps (l.head? == some '/') (splitSlash l)) := by
  unfold goCleanL renderPath
  rw [if_neg hl]

theorem normComps_plain_of_rooted (comps : List (List Char)) (h : NormComps true comps) :
    ∀ s ∈ comps, plainComp s := by
  obtain ⟨k, gens, rfl, hg, hr⟩ := h
  rw [hr rfl]
  simpa using hg

theorem goCleanL_render (rooted : Bool) (comps : List (List Char)) (h : NormComps rooted comps) :
    goCleanL (renderPath rooted comps) = renderPath rooted comps := by
  cases rooted with
  | true =>
    cases comps with
    | nil =>
      show goCleanL ['/'] = renderPath true []
      decide
    | cons c cs =>
      have hplain := normComps_plain_of_rooted (c :: cs) h
      have hgood := normComps_good true (c :: cs) h
      have hslashfree : ∀ s ∈ c :: cs, '/' ∉ s := fun s hs => (hgood s hs).2.2
      show goCleanL ('/' :: interSlash (c :: cs)) = _
      rw [goCleanL_eq _ (by simp)]
      rw [show ((('/' : Char) :: interSlash (c :: cs)).head? == some '/') = true from by simp]
      rw [splitSlash_cons_slash, splitSlash_interSlash c cs hslashfree]
      have hcc : cleanComps true ([] :: c :: cs) = c :: cs := by
        unfold cleanComps
        rw [List.foldl_cons,
          show cleanStep true [] [] = [] from by unfold cleanStep; rw [if_pos (Or.inl rfl)],
          foldl_cleanStep_plain_push true (c :: cs) hplain []]
        simp
      rw [hcc]
  | false =>
    cases comps with
    | nil =>
      show goCleanL ['.'] = renderPath false []
      decide
    | cons c cs =>
      have hgood := normComps_good false (c :: cs) h
      have hslashfree : ∀ s ∈ c :: cs, '/' ∉ s := fun s hs => (hgood s hs).2.2
      have hrender : renderPath false (c :: cs) = interSlash (c :: cs) := by
        unfold renderPath
        rw [if_neg (by simp), if_neg (by simp)]
      rw [hrender]
      have hne := (interSlash_good c cs hgood).1
      rw [goCleanL_eq _ hne]
      have hch : c ≠ [] := (hgood c (List.mem_cons_self c cs)).1
      have hheadeq : (interSlash (c :: cs)).head? = c.head? := interSlash_head c cs hch
      have hheadne : (interSlash (c :: cs)).head? ≠ some '/' := by
        rw [hheadeq]
        obtain ⟨ch, ctl, rfl⟩ : ∃ ch ctl, c = ch :: ctl := by
          cases c with
          | nil => exact absurd rfl hch
          | cons ch ctl => exact ⟨ch, ctl, rfl⟩
        have : ch ≠ '/' :=
          fun hh => (hgood _ (List.mem_cons_self _ cs)).2.2 (hh ▸ List.mem_cons_self ch ctl)
        simpa using this
      rw [show ((interSlash (c :: cs)).head? == some '/') = false from beq_eq_false_iff_ne.mpr hheadne]
      rw [splitSlash_interSlash c cs hslashfree, cleanComps_of_norm false (c :: cs) h]
      exact hrender

theorem goCleanL_idem (l : List Char) : goCleanL (goCleanL l) = goCleanL l := by
  by_cases hl : l = []
  · subst hl
    decide
  · rw [goCleanL_eq l hl]
    exact goCleanL_render _ _ (cleanComps_norm _ l)

theorem goClean_data (s : String) : (goClean s).data = goCleanL s.data := rfl

theorem goClean_idem (s : String) : goClean (goClean s) = goClean s := by
  rw [str_eq_iff_data]
  show goCleanL (goCleanL s.data) = goCleanL s.data
  exact goCleanL_idem s.data

theorem goCleanL_ne_nil (l : List Char) : goCleanL l ≠ [] := by
  by_cases hl : l = []
  · subst hl; decide
  · rw [goCleanL_eq l hl]
    set b := (l.head? == some '/') with hb
    have hnorm := cleanComps_norm b l
    unfold renderPath
    cases hcomps : cleanComps b (splitSlash l) with
    | nil => cases b <;> simp
    | cons c cs =>
      have hgood := normComps_good b _ (hcomps ▸ hnorm)
      cases b with
      | true => simp
      | false =>
        simp only [Bool.false_eq_true, if_false, if_neg (by simp : ¬(c :: cs = []))]
        exact (interSlash_good c cs hgood).1

theorem goClean_ne_empty (s : String) : goClean s ≠ "" := by
  intro h
  exact goCleanL_ne_nil s.data (str_eq_iff_data.mp h)

/-! ## Appending a plain component to a path -/

/-- A plain name usable as a single path component: nonempty, slash-free,
and neither of the special dot components. -/
def SimpleName (n : String) : Prop :=
  n ≠ "" ∧ n ≠ "." ∧ n ≠ ".." ∧ '/' ∉ n.data

instance : DecidablePred SimpleName := fun n => by unfold SimpleName; infer_instance

theorem simpleName_plain {n : String} (h : SimpleName n) : plainComp n.data := by
  obtain ⟨h1, h2, h3, h4⟩ := h
  refine ⟨?_, ?_, ?_, h4⟩
  · intro hh; apply h1; rw [str_eq_iff_data, hh]
  · intro hh; apply h2; rw [str_eq_iff_data, hh]
  · intro hh; apply h3; rw [str_eq_iff_data, hh]

/-- What appending one plain component does on an already-cleaned path. -/
def appendComp (p n : String) : String :=
  if p = "/" then p ++ n else if p = "." then n else p ++ "/" ++ n

theorem mk_data (s : String) : String.mk s.data = s := by cases s; rfl

theorem renderPath_append (b : Bool) (comps : List (List Char)) (h : NormComps b comps)
    (n : String) (hn : SimpleName n) :
    String.mk (renderPath b (comps ++ [n.data])) = appendComp (String.mk (renderPath b comps)) n := by
  have hp := simpleName_plain hn
  cases comps with
  | nil =>
    cases b with
    | false =>
      show String.mk (renderPath false [n.data]) = appendComp (String.mk ['.']) n
      unfold renderPath appendComp
      rw [if_neg (by simp), if_neg (by simp), if_neg (by decide), if_pos rfl]
      show String.mk (interSlash [n.data]) = n
      show String.mk n.data = n
      exact mk_data n
    | true =>
      show String.mk ('/' :: interSlash [n.data]) = appendComp (String.mk ['/']) n
      unfold appendComp
      rw [if_pos rfl]
      rw [str_eq_iff_data]
      show '/' :: n.data = (String.mk ['/'] ++ n).data
      rw [data_append]
      rfl
  | cons c cs =>
    have hgood := normComps_good b (c :: cs) h
    have hIS := interSlash_good c cs hgood
    have happ : interSlash ((c :: cs) ++ [n.data]) = interSlash (c :: cs) ++ '/' :: n.data :=
      interSlash_append_single (c :: cs) n.data (by simp)
    cases b with
    | true =>
      show String.mk ('/' :: interSlash ((c :: cs) ++ [n.data])) =
        appendComp (String.mk ('/' :: interSlash (c :: cs))) n
      rw [happ]
      unfold appendComp
      rw [if_neg ?hslash, if_neg ?hdot]
      case hslash =>
        intro hh
        have := str_eq_iff_data.mp hh
        simp only at this
        have : interSlash (c :: cs) = [] := by
          have := congrArg List.tail this
          simpa using this
        exact hIS.1 this
      case hdot =>
        intro hh
        have := str_eq_iff_data.mp hh
        simp only at this
        have hfirst := congrArg List.head? this
        simp at hfirst
      rw [str_eq_iff_data, data_append, data_append]
      show '/' :: (interSlash (c :: cs) ++ '/' :: n.data) =
        ('/' :: interSlash (c :: cs)) ++ ['/'] ++ n.data
      simp
    | false =>
      have hr1 : renderPath false ((c :: cs) ++ [n.data]) = interSlash ((c :: cs) ++ [n.data]) := by
        unfold renderPath
        rw [if_neg (by simp), if_neg (by simp)]
      have hr2 : renderPath false (c :: cs) = interSlash (c :: cs) := by
        unfold renderPath
        rw [if_neg (by simp), if_neg (by simp)]
      rw [hr1, hr2, happ]
      unfold appendComp
      rw [if_neg ?hslash2, if_neg ?hdot2]
      case hslash2 =>
        intro hh
        have := str_eq_iff_data.mp hh
        simp only at this
        exact hIS.2.2 this
      case hdot2 =>
        intro hh
        have := str_eq_iff_data.mp hh
        simp only at this
        exact hIS.2.1 this
      rw [str_eq_iff_data, data_append, data_append]
      show interSlash (c :: cs) ++ '/' :: n.data = interSlash (c :: cs) ++ ['/'] ++ n.data
      simp

theorem goClean_append_comp (x n : String) (hx : x ≠ "") (hn : SimpleName n) :
    goClean (x ++ "/" ++ n) = appendComp (goClean x) n := by
  have hp := simpleName_plain hn
  have hxd : x.data ≠ [] := fun h => hx (str_eq_iff_data.mpr (by rw [h]))
  obtain ⟨ch, xs, hx2⟩ : ∃ ch xs, x.data = ch :: xs := by
    cases hc : x.data with
    | nil => exact absurd hc hxd
    | cons ch xs => exact ⟨ch, xs, rfl⟩
  have hdata : (x ++ "/" ++ n).data = x.data ++ '/' :: n.data := by
    rw [data_append, data_append]
    simp
  have hargne : (x ++ "/" ++ n).data ≠ [] := by
    rw [hdata, hx2]; simp
  have hheads : (x.data ++ '/' :: n.data).head? = x.data.head? := by
    rw [hx2]; rfl
  have hsplit : splitSlash (x.data ++ '/' :: n.data) = splitSlash x.data ++ [n.data] := by
    rw [splitSlash_append, splitSlash_no_slash n.data hp.2.2.2]
  set b := (x.data.head? == some '/') with hbdef
  have hclean : cleanComps b (splitSlash (x.data ++ '/' :: n.data)) =
      cleanComps b (splitSlash x.data) ++ [n.data] := by
    rw [hsplit]
    unfold cleanComps
    rw [List.foldl_append]
    simp only [List.foldl_cons, List.foldl_nil]
    rw [cleanStep_plain b _ n.data hp]
    simp
  have lhs1 : goClean (x ++ "/" ++ n) =
      String.mk (renderPath b (cleanComps b (splitSlash x.data) ++ [n.data])) := by
    unfold goClean
    rw [hdata, goCleanL_eq _ (hdata ▸ hargne), hheads, ← hbdef, hclean]
  have rhs1 : goClean x = String.mk (renderPath b (cleanComps b (splitSlash x.data))) := by
    unfold goClean
    rw [goCleanL_eq _ hxd, ← hbdef]
  rw [lhs1, rhs1]
  exact renderPath_append b _ (cleanComps_norm b x.data) n hn

theorem goClean_trailing (x : String) (hx : x ≠ "") : goClean (x ++ "/") = goClean x := by
  have hxd : x.data ≠ [] := fun h => hx (str_eq_iff_data.mpr (by rw [h]))
  obtain ⟨ch, xs, hx2⟩ : ∃ ch xs, x.data = ch :: xs := by
    cases hc : x.data with
    | nil => exact absurd hc hxd
    | cons ch xs => exact ⟨ch, xs, rfl⟩
  rw [str_eq_iff_data]
  show goCleanL (x ++ "/").data = goCleanL x.data
  have hdata : (x ++ "/").data = x.data ++ '/' :: [] := by
    rw [data_append]
  rw [hdata, goCleanL_eq _ (by rw [hx2]; simp), goCleanL_eq _ hxd]
  have hheads : (x.data ++ '/' :: []).head? = x.data.head? := by rw [hx2]; rfl
  rw [hheads]
  have hsplit : splitSlash (x.data ++ '/' :: []) = splitSlash x.data ++ [[]] := by
    rw [splitSlash_append]; rfl
  have hclean : ∀ b : Bool, cleanComps b (splitSlash x.data ++ [[]]) =
      cleanComps b (splitSlash x.data) := by
    intro b
    unfold cleanComps
    rw [List.foldl_append]
    simp only [List.foldl_cons, List.foldl_nil]
    rw [show ∀ S, cleanStep b S [] = S from fun S => by unfold cleanStep; rw [if_pos (Or.inl rfl)]]
  rw [hsplit, hclean]

theorem goClean_simple (n : String) (h : SimpleName n) : goClean n = n := by
  have hp := simpleName_plain h
  rw [str_eq_iff_data]
  show goCleanL n.data = n.data
  rw [goCleanL_eq _ hp.1]
  have hheadne : n.data.head? ≠ some '/' := by
    obtain ⟨ch, xs, hx2⟩ : ∃ ch xs, n.data = ch :: xs := by
      cases hc : n.data with
      | nil => exact absurd hc hp.1
      | cons ch xs => exact ⟨ch, xs, rfl⟩
    rw [hx2]
    have : ch ≠ '/' := fun hh => hp.2.2.2 (hx2 ▸ (hh ▸ List.mem_cons_self ch xs))
    simpa using this
  rw [show (n.data.head? == some '/') = false from beq_eq_false_iff_ne.mpr hheadne]
  rw [splitSlash_no_slash n.data hp.2.2.2]
  have hcc : cleanComps false [n.data] = [n.data] := by
    unfold cleanComps
    rw [List.foldl_cons, List.foldl_nil, cleanStep_plain false [] n.data hp]
    rfl
  rw [hcc]
  unfold renderPath
  rw [if_neg (by simp), if_neg (by simp [hp.1])]
  rfl

theorem goJoin_two (a b : String) (ha : a ≠ "") : goJoin [a, b] = goClean (a ++ "/" ++ b) := by
  unfold goJoin
  rw [show ([a, b].dropWhile fun e => e == "") = [a, b] from by
    simp [List.dropWhile, beq_eq_false_iff_ne.mpr ha]]
  rfl

theorem goJoin_three (a b c : String) (ha : a ≠ "") :
    goJoin [a, b, c] = goClean (a ++ "/" ++ (b ++ "/" ++ c)) := by
  unfold goJoin
  rw [show ([a, b, c].dropWhile fun e => e == "") = [a, b, c] from by
    simp [List.dropWhile, beq_eq_false_iff_ne.mpr ha]]
  rfl

theorem appendComp_assoc (p n m : String) : appendComp p n ++ m = appendComp p (n ++ m) := by
  unfold appendComp
  by_cases h1 : p = "/"
  · rw [if_pos h1, if_pos h1, string_append_assoc]
  · rw [if_neg h1, if_neg h1]
    by_cases h2 : p = "."
    · rw [if_pos h2, if_pos h2]
    · rw [if_neg h2, if_neg h2, string_append_assoc]

theorem appendComp_ne_empty (p n : String) (hn : n ≠ "") : appendComp p n ≠ "" := by
  have hnd : n.data ≠ [] := fun h => hn (str_eq_iff_data.mpr (by rw [h]))
  unfold appendComp
  intro hh
  split at hh
  · have := str_eq_iff_data.mp hh
    rw [data_append] at this
    simp at this
    exact hnd this.2
  · split at hh
    · exact hn hh
    · have := str_eq_iff_data.mp hh
      rw [data_append, data_append] at this
      simp at this

/-- The path identity behind the write-read round trip: the final path
that `Write` renames to is the `Read` probe path extended with the
document extension, for a plain resource name. -/
theorem joinPaths_roundtrip (dd c r : String) (hdd : dd ≠ "") (hc : c ≠ "")
    (hr : SimpleName r) :
    goJoin [goJoin [dd, c], r ++ ".json"] = goJoin [dd, c, r] ++ ".json" := by
  have hrj : SimpleName (r ++ ".json") := by
    obtain ⟨h1, h2, h3, h4⟩ := hr
    refine ⟨?_, ?_, ?_, ?_⟩
    · intro hh
      have := congrArg List.length (str_eq_iff_data.mp hh)
      rw [data_append] at this
      simp at this
    · intro hh
      have := congrArg List.length (str_eq_iff_data.mp hh)
      rw [data_append] at this
      simp at this
    · intro hh
      have := congrArg List.length (str_eq_iff_data.mp hh)
      rw [data_append] at this
      simp at this
    · rw [data_append]
      intro hh
      rcases List.mem_append.mp hh with hh | hh
      · exact h4 hh
      · simp [show (".json" : String).data = ['.', 'j', 's', 'o', 'n'] from rfl] at hh
  have hD : goJoin [dd, c] = goClean (dd ++ "/" ++ c) := goJoin_two dd c hdd
  have hDne : goJoin [dd, c] ≠ "" := hD ▸ goClean_ne_empty (dd ++ "/" ++ c)
  have hx2 : (dd ++ "/" ++ c) ≠ "" := by
    intro h
    have := str_eq_iff_data.mp h
    rw [data_append, data_append] at this
    simp at this
  rw [goJoin_two _ _ hDne, hD,
    goClean_append_comp (goClean (dd ++ "/" ++ c)) (r ++ ".json") (goClean_ne_empty _) hrj,
    goClean_idem]
  rw [goJoin_three dd c r hdd,
    show dd ++ "/" ++ (c ++ "/" ++ r) = dd ++ "/" ++ c ++ "/" ++ r from by
      rw [str_eq_iff_data]; simp [data_append],
    goClean_append_comp (dd ++ "/" ++ c) r hx2 hr]
  exact (appendComp_assoc _ r ".json").symm

/-! ## Filesystem lemmas -/

theorem find?_eq_none_of {β : Type} (l : List (String × β)) (x : String)
    (h : ∀ e ∈ l, e.1 ≠ x) : l.find? (fun e => e.1 == x) = none := by
  induction l with
  | nil => rfl
  | cons a l ih =>
    rw [List.find?_cons_of_neg _ (by simp [h a (List.mem_cons_self a l)])]
    exact ih (fun e he => h e (List.mem_cons_of_mem a he))

theorem find?_filter_eq {β : Type} (l : List (String × β)) (g : String × β → Bool) (x : String)
    (h : ∀ e ∈ l, e.1 = x → g e = true) :
    (l.filter g).find? (fun e => e.1 == x) = l.find? (fun e => e.1 == x) := by
  induction l with
  | nil => rfl
  | cons a l ih =>
    have hrest := ih (fun e he hex => h e (List.mem_cons_of_mem a he) hex)
    by_cases hax : a.1 = x
    · rw [List.filter_cons_of_pos (h a (List.mem_cons_self a l) hax),
        List.find?_cons_of_pos _ (by simp [hax]), List.find?_cons_of_pos _ (by simp [hax])]
    · cases hga : g a
      · rw [List.filter_cons_of_neg (by simp [hga]),
          List.find?_cons_of_neg _ (by simp [hax]), hrest]
      · rw [List.filter_cons_of_pos hga, List.find?_cons_of_neg _ (by simp [hax]),
          List.find?_cons_of_neg _ (by simp [hax]), hrest]

theorem lookup_insertFS_self (fs : FS) (p : String) (e : Entry) :
    lookupFS (insertFS fs p e) p = some e := by
  unfold lookupFS insertFS
  rw [List.find?_cons_of_pos _ (by simp)]
  rfl

theorem lookup_insertFS_ne (fs : FS) (p q : String) (e : Entry) (h : q ≠ p) :
    lookupFS (insertFS fs p e) q = lookupFS fs q := by
  unfold lookupFS insertFS
  simp only
  rw [List.find?_cons_of_neg _ (by simp [Ne.symm h]),
    find?_filter_eq _ _ q (fun e2 _ he2q => by simp [he2q, h])]

theorem lookup_removeKeyFS_self (fs : FS) (p : String) :
    lookupFS (removeKeyFS fs p) p = none := by
  unfold lookupFS removeKeyFS
  rw [find?_eq_none_of]
  · rfl
  · intro e he
    have := (List.mem_filter.mp he).2
    simpa using this

theorem lookup_removeKeyFS_ne (fs : FS) (p q : String) (h : q ≠ p) :
    lookupFS (removeKeyFS fs p) q = lookupFS fs q := by
  unfold lookupFS removeKeyFS
  simp only
  rw [find?_filter_eq _ _ q (fun e2 _ he2q => by simp [he2q, h])]

theorem errPaths_insertFS (fs : FS) (p : String) (e : Entry) :
    (insertFS fs p e).errPaths = fs.errPaths := rfl

theorem errPaths_removeKeyFS (fs : FS) (p : String) :
    (removeKeyFS fs p).errPaths = fs.errPaths := rfl

theorem mkdirFS_ok_shape (fs : FS) (p : String) (fs1 : FS) (h : mkdirFS fs p = .ok fs1) :
    fs1 = insertFS fs p .dir := by
  unfold mkdirFS at h
  split at h
  · exact absurd h (by simp)
  · split at h
    · exact absurd h (by simp)
    · simpa using h.symm

theorem writeFileFS_ok_shape (fs : FS) (p b : String) (fs2 : FS)
    (h : writeFileFS fs p b = .ok fs2) : fs2 = insertFS fs p (.file b) := by
  unfold writeFileFS at h
  split at h
  · exact absurd h (by simp)
  · split at h
    · exact absurd h (by simp)
    · simpa using h.symm

theorem renameFS_ok_shape (fs : FS) (src dst : String) (fs2 : FS)
    (h : renameFS fs src dst = .ok fs2) :
    ∃ e, lookupFS fs src = some e ∧ fs2 = insertFS (removeKeyFS fs src) dst e := by
  unfold renameFS at h
  split at h
  · exact absurd h (by simp)
  · rename_i e heq
    refine ⟨e, heq, ?_⟩
    split at h
    · exact absurd h (by simp)
    · simpa using h.symm

theorem mkdirAllFS_errPaths (fuel : Nat) (fs : FS) (p : String) :
    (mkdirAllFS fuel fs p).2.errPaths = fs.errPaths := by
  induction fuel generalizing fs p with
  | zero => rfl
  | succ fuel ih =>
    unfold mkdirAllFS
    by_cases h0 : p = "." ∨ p = "/"
    · rw [if_pos h0]
    · rw [if_neg h0]
      cases hl : lookupFS fs p with
      | some e => cases e <;> rfl
      | none =>
        simp only
        by_cases hp : dirOf p = p
        · rw [if_pos hp]
          cases hm : mkdirFS fs p with
          | error e => rfl
          | ok fs1 => simp only; rw [mkdirFS_ok_shape fs p fs1 hm]; rfl
        · rw [if_neg hp]
          rcases hrec : mkdirAllFS fuel fs (dirOf p) with ⟨o, fs1⟩
          have hfs1 : fs1.errPaths = fs.errPaths := by
            have := ih fs (dirOf p)
            rw [hrec] at this
            exact this
          cases o with
          | some e => exact hfs1
          | none =>
            simp only
            cases hm : mkdirFS fs1 p with
            | error e => exact hfs1
            | ok fs2 =>
              simp only
              rw [mkdirFS_ok_shape fs1 p fs2 hm, errPaths_insertFS]
              exact hfs1

theorem mkdirAllFS_file_lookup (fuel : Nat) (fs : FS) (p q : String) (b : String)
    (h : lookupFS (mkdirAllFS fuel fs p).2 q = some (.file b)) :
    lookupFS fs q = some (.file b) := by
  induction fuel generalizing fs p with
  | zero => exact h
  | succ fuel ih =>
    rw [mkdirAllFS] at h
    by_cases h0 : p = "." ∨ p = "/"
    · rwa [if_pos h0] at h
    · rw [if_neg h0] at h
      cases hl : lookupFS fs p with
      | some e => rw [hl] at h; cases e <;> exact h
      | none =>
        rw [hl] at h
        simp only at h
        by_cases hp : dirOf p = p
        · rw [if_pos hp] at h
          cases hm : mkdirFS fs p with
          | error e => rw [hm] at h; exact h
          | ok fs1 =>
            rw [hm] at h
            simp only at h
            rw [mkdirFS_ok_shape fs p fs1 hm] at h
            by_cases hq : q = p
            · subst hq; rw [lookup_insertFS_self] at h; exact absurd h (by simp)
            · rwa [lookup_insertFS_ne fs p q .dir hq] at h
        · rw [if_neg hp] at h
          rcases hrec : mkdirAllFS fuel fs (dirOf p) with ⟨o, fs1⟩
          rw [hrec] at h
          have hstep : lookupFS fs1 q = some (.file b) → lookupFS fs q = some (.file b) := by
            intro hh
            have := ih fs (dirOf p)
            rw [hrec] at this
            exact this hh
          cases o with
          | some e => exact hstep h
          | none =>
            simp only at h
            cases hm : mkdirFS fs1 p with
            | error e => rw [hm] at h; exact hstep h
            | ok fs2 =>
              rw [hm] at h
              simp only at h
              rw [mkdirFS_ok_shape fs1 p fs2 hm] at h
              by_cases hq : q = p
              · subst hq; rw [lookup_insertFS_self] at h; exact absurd h (by simp)
              · rw [lookup_insertFS_ne fs1 p q .dir hq] at h; exact hstep h

theorem mkdirFS_ok_lookup_none (fs : FS) (p : String) (fs1 : FS)
    (h : mkdirFS fs p = .ok fs1) : lookupFS fs p = none := by
  unfold mkdirFS at h
  split at h
  · exact absurd h (by simp)
  · rename_i heq
    split at h
    · exact absurd h (by simp)
    · exact heq

theorem mkdirAllFS_file_preserved (fuel : Nat) (fs : FS) (p q : String) (b : String)
    (h : lookupFS fs q = some (.file b)) :
    lookupFS (mkdirAllFS fuel fs p).2 q = some (.file b) := by
  induction fuel generalizing fs p with
  | zero => exact h
  | succ fuel ih =>
    rw [mkdirAllFS]
    by_cases h0 : p = "." ∨ p = "/"
    · rwa [if_pos h0]
    · rw [if_neg h0]
      cases hl : lookupFS fs p with
      | some e => cases e <;> exact h
      | none =>
        simp only
        by_cases hp : dirOf p = p
        · rw [if_pos hp]
          cases hm : mkdirFS fs p with
          | error e => exact h
          | ok fs1 =>
            simp only
            rw [mkdirFS_ok_shape fs p fs1 hm]
            have hq : q ≠ p := by
              intro hh
              rw [hh, hl] at h
              exact absurd h (by simp)
            rw [lookup_insertFS_ne fs p q .dir hq]
            exact h
        · rw [if_neg hp]
          rcases hrec : mkdirAllFS fuel fs (dirOf p) with ⟨o, fs1⟩
          have hstep : lookupFS fs1 q = some (.file b) := by
            have := ih fs (dirOf p) h
            rw [hrec] at this
            exact this
          cases o with
          | some e => exact hstep
          | none =>
            simp only
            cases hm : mkdirFS fs1 p with
            | error e => exact hstep
            | ok fs2 =>
              simp only
              rw [mkdirFS_ok_shape fs1 p fs2 hm]
              have hq : q ≠ p := by
                intro hh
                rw [hh, mkdirFS_ok_lookup_none fs1 p fs2 hm] at hstep
                exact absurd hstep (by simp)
              rw [lookup_insertFS_ne fs1 p q .dir hq]
              exact hstep

/-! ## Driver helper lemmas -/

theorem getOrCreateMutex_dir (d : Driver) (c : String) :
    (d.getOrCreateMutex c).2.1.dir = d.dir := by
  unfold Driver.getOrCreateMutex
  cases lookupReg d.mutexes c <;> rfl

theorem getOrCreateMutex_trace (d : Driver) (c : String) :
    (d.getOrCreateMutex c).2.2 = [.lockGlobal, .regAccess c, .unlockGlobal] := by
  unfold Driver.getOrCreateMutex
  cases lookupReg d.mutexes c <;> rfl

theorem getOrCreateMutex_mono (d : Driver) (c : String) :
    ∀ e ∈ d.mutexes, e ∈ (d.getOrCreateMutex c).2.1.mutexes := by
  intro e he
  unfold Driver.getOrCreateMutex
  cases lookupReg d.mutexes c with
  | none => exact List.mem_cons_of_mem _ he
  | some i => exact he

theorem getOrCreateMutex_found (d : Driver) (c : String) (i : Nat)
    (h : lookupReg d.mutexes c = some i) :
    d.getOrCreateMutex c = (i, d, [.lockGlobal, .regAccess c, .unlockGlobal]) := by
  unfold Driver.getOrCreateMutex
  rw [h]

theorem getOrCreateMutex_idem (d : Driver) (c : String) :
    ((d.getOrCreateMutex c).2.1).getOrCreateMutex c =
      ((d.getOrCreateMutex c).1, (d.getOrCreateMutex c).2.1,
        [.lockGlobal, .regAccess c, .unlockGlobal]) := by
  unfold Driver.getOrCreateMutex
  cases h : lookupReg d.mutexes c with
  | some i => simp only; rw [h]
  | none =>
    simp only
    rw [show lookupReg ((c, d.nextId) :: d.mutexes) c = some d.nextId from by
      unfold lookupReg; rw [List.find?_cons_of_pos _ (by simp)]; rfl]

theorem write_mutexes_mono {V : Type} (C : Codec V) (d : Driver) (fs : FS)
    (c r : String) (v : V) :
    ∀ e ∈ d.mutexes, e ∈ (Driver.write C d fs c r v).2.1.mutexes := by
  intro e he
  unfold Driver.write
  by_cases hc : c = ""
  · rw [if_pos hc]; exact he
  · rw [if_neg hc]
    by_cases hr : r = ""
    · rw [if_pos hr]; exact he
    · rw [if_neg hr]
      rcases hg : d.getOrCreateMutex c with ⟨mid, d1, tr0⟩
      have hmono := getOrCreateMutex_mono d c e he
      rw [hg] at hmono
      dsimp only at hmono
      dsimp only
      repeat' first
      | exact hmono
      | split

theorem delete_mutexes_mono (d : Driver) (fs : FS) (c r : String) :
    ∀ e ∈ d.mutexes, e ∈ (Driver.delete d fs c r).2.1.mutexes := by
  intro e he
  unfold Driver.delete
  by_cases hc : c = ""
  · rw [if_pos hc]; exact he
  · rw [if_neg hc]
    rcases hg : d.getOrCreateMutex c with ⟨mid, d1, tr0⟩
    have hmono := getOrCreateMutex_mono d c e he
    rw [hg] at hmono
    dsimp only at hmono
    dsimp only
    repeat' first
    | exact hmono
    | split

/-! ## Claim C2 -/

/-- C2: `Write` with an empty collection name, and `Write` with an empty
resource name, both fail with a ValidationError; the failure happens
before any locking or filesystem io, so the driver state and the
filesystem are returned unchanged and the event trace is empty. -/
theorem C2_write_validation {V : Type} (C : Codec V) (d : Driver) (fs : FS)
    (c r : String) (v : V) :
    (∃ m1, Driver.write C d fs "" r v = (some (.validation m1), d, fs, [])) ∧
    (∃ m2, Driver.write C d fs c "" v = (some (.validation m2), d, fs, [])) := by
  constructor
  · exact ⟨collectionEmptyMsg, by unfold Driver.write; rw [if_pos rfl]⟩
  · by_cases hc : c = ""
    · subst hc
      exact ⟨collectionEmptyMsg, by unfold Driver.write; rw [if_pos rfl]⟩
    · exact ⟨resourceEmptyMsg, by unfold Driver.write; rw [if_neg hc, if_pos rfl]⟩

/-! ## Claim C9 -/

/-- C9: the per-collection mutex is memoized: a second lookup for the same
collection returns the same mutex id and leaves the driver unchanged; a
lookup on a registry already holding the collection returns the registered
id without change; registry entries are never removed by any operation;
and the lookup-or-create itself happens between acquiring and releasing
the global registry lock, with no io events in between. -/
theorem C9_mutex_registry (d : Driver) (c : String) :
    (∀ i, lookupReg d.mutexes c = some i →
      d.getOrCreateMutex c = (i, d, [.lockGlobal, .regAccess c, .unlockGlobal])) ∧
    (((d.getOrCreateMutex c).2.1).getOrCreateMutex c =
      ((d.getOrCreateMutex c).1, (d.getOrCreateMutex c).2.1,
        [.lockGlobal, .regAccess c, .unlockGlobal])) ∧
    (∀ e ∈ d.mutexes, e ∈ (d.getOrCreateMutex c).2.1.mutexes) ∧
    (∀ (V : Type) (C : Codec V) (fs : FS) (c2 r : String) (v : V),
      ∀ e ∈ d.mutexes, e ∈ (Driver.write C d fs c2 r v).2.1.mutexes) ∧
    (∀ (fs : FS) (c2 r : String),
      ∀ e ∈ d.mutexes, e ∈ (Driver.delete d fs c2 r).2.1.mutexes) ∧
    ((d.getOrCreateMutex c).2.2 = [.lockGlobal, .regAccess c, .unlockGlobal]) := by
  refine ⟨getOrCreateMutex_found d c, getOrCreateMutex_idem d c, getOrCreateMutex_mono d c,
    ?_, ?_, getOrCreateMutex_trace d c⟩
  · intro V C fs c2 r v e he
    exact write_mutexes_mono C d fs c2 r v e he
  · intro fs c2 r e he
    exact delete_mutexes_mono d fs c2 r e he

/-- Witness for C9 at a concrete registry. -/
theorem C9_witness :
    Driver.getOrCreateMutex ⟨"db", [("users", 7)], 8⟩ "users" =
      (7, ⟨"db", [("users", 7)], 8⟩, [.lockGlobal, .regAccess "users", .unlockGlobal]) :=
  (C9_mutex_registry ⟨"db", [("users", 7)], 8⟩ "users").1 7 (by decide)

/-! ## Claim C10 -/

/-- C10: when the existence probe of `ReadAll` passes but the directory
enumeration itself fails, the enumeration error is discarded and the call
returns an empty sequence with success, not an io error. -/
theorem C10_readAll_swallows_readdir_error (d : Driver) (fs : FS) (c : String)
    (hc : c ≠ "") (fi : Entry) (hstat : statPath fs (goJoin [d.dir, c]) = .ok fi)
    (e : OsErr) (hrd : readDirFS fs (goJoin [d.dir, c]) = .error e) :
    Driver.readAll d fs c =
      (.ok [], [.ioStat (goJoin [d.dir, c]), .ioReadDir (goJoin [d.dir, c])]) := by
  unfold Driver.readAll
  rw [if_neg hc]
  simp only
  rw [hstat, hrd]
  rfl

/-- Witness for C10: the probe passes through the extension-qualified
sibling file while the directory itself is absent, so enumeration fails
and the error is silently dropped. -/
theorem C10_witness :
    Driver.readAll ⟨"db", [], 0⟩ ⟨[("db", .dir), ("db/c.json", .file "x")], []⟩ "c" =
      (.ok [], [.ioStat (goJoin ["db", "c"]), .ioReadDir (goJoin ["db", "c"])]) :=
  C10_readAll_swallows_readdir_error ⟨"db", [], 0⟩ ⟨[("db", .dir), ("db/c.json", .file "x")], []⟩
    "c" (by decide) (.file "x") (by decide) (.notExist "db/c") (by decide)

/-! ## Claim C8 -/

/-- C8: store initialization cleans the root path and stores the cleaned
form; when something already exists at the cleaned path the filesystem is
returned unchanged with no error; when absent, a single-level `Mkdir` is
attempted: it creates exactly the one directory when the parent exists,
and fails without touching the filesystem when the parent is missing
(non-recursive creation). -/
theorem C8_new_characterization (dirStr : String) (fs : FS) :
    ((newDriver dirStr fs).1.dir = goClean dirStr) ∧
    (∀ e, lookupFS fs (goClean dirStr) = some e →
      fs.errPaths.contains (goClean dirStr) = false →
      newDriver dirStr fs = (⟨goClean dirStr, [], 0⟩, none, fs, [.ioStat (goClean dirStr)])) ∧
    (lookupFS fs (goClean dirStr) = none →
      fs.errPaths.contains (goClean dirStr) = false →
      isDirFS fs (dirOf (goClean dirStr)) = true →
      newDriver dirStr fs = (⟨goClean dirStr, [], 0⟩, none,
        insertFS fs (goClean dirStr) .dir,
        [.ioStat (goClean dirStr), .ioMkdir (goClean dirStr)])) ∧
    (lookupFS fs (goClean dirStr) = none →
      isDirFS fs (dirOf (goClean dirStr)) = false →
      newDriver dirStr fs = (⟨goClean dirStr, [], 0⟩,
        some (.notExist (dirOf (goClean dirStr))), fs,
        [.ioStat (goClean dirStr), .ioMkdir (goClean dirStr)])) := by
  refine ⟨?_, ?_, ?_, ?_⟩
  · unfold newDriver
    dsimp only
    repeat' first
    | rfl
    | split
  · intro e hl hne
    have hstat : osStat fs (goClean dirStr) = .ok e := by
      unfold osStat
      rw [if_neg (by rw [hne]; simp), hl]
    unfold newDriver
    dsimp only
    rw [hstat]
  · intro hl hne hp
    have hstat : osStat fs (goClean dirStr) = .error (.notExist (goClean dirStr)) := by
      unfold osStat
      rw [if_neg (by rw [hne]; simp), hl]
    have hmk : mkdirFS fs (goClean dirStr) = .ok (insertFS fs (goClean dirStr) .dir) := by
      unfold mkdirFS
      rw [hl, if_neg (by simp [hp])]
    unfold newDriver
    dsimp only
    rw [hstat, hmk]
  · intro hl hp
    have hmk : mkdirFS fs (goClean dirStr) = .error (.notExist (dirOf (goClean dirStr))) := by
      unfold mkdirFS
      rw [hl, if_pos (by simp [hp])]
    unfold newDriver
    dsimp only
    cases hcp : fs.errPaths.contains (goClean dirStr) with
    | true =>
      rw [show osStat fs (goClean dirStr) = .error (.permission (goClean dirStr)) from by
        unfold osStat; rw [if_pos hcp]]
      rw [hmk]
    | false =>
      rw [show osStat fs (goClean dirStr) = .error (.notExist (goClean dirStr)) from by
        unfold osStat; rw [if_neg (by rw [hcp]; simp), hl]]
      rw [hmk]

/-- Witness for C8: a root path with a doubled separator is cleaned before
storage, and initialization on an existing directory changes nothing. -/
theorem C8_witness :
    newDriver "a//b" ⟨[("a", .dir), ("a/b", .dir)], []⟩ =
      (⟨"a/b", [], 0⟩, none, ⟨[("a", .dir), ("a/b", .dir)], []⟩, [.ioStat "a/b"]) := by
  have h := (C8_new_characterization "a//b" ⟨[("a", .dir), ("a/b", .dir)], []⟩).2.1 .dir
    (by decide) (by decide)
  rw [show goClean "a//b" = "a/b" from by decide] at h
  exact h

/-! ## Claim C6 -/

theorem readLoop_error_of_mem (fs : FS) (dirP : String) (names : List String) (n : String)
    (hn : n ∈ names) (e : OsErr) (hf : readFileFS fs (goJoin [dirP, n]) = .error e) :
    ∃ e2, readLoop fs dirP names = .error e2 := by
  induction names with
  | nil => cases hn
  | cons m rest ih =>
    cases hm : readFileFS fs (goJoin [dirP, m]) with
    | error e3 => exact ⟨e3, by unfold readLoop; rw [hm]⟩
    | ok b =>
      rcases List.mem_cons.mp hn with hn2 | hn2
      · rw [hn2, hm] at hf
        exact absurd hf (by simp)
      · obtain ⟨e2, he2⟩ := ih hn2
        exact ⟨e2, by unfold readLoop; rw [hm, he2]⟩

/-- C6: if reading any individual file listed in the collection directory
fails, the whole `ReadAll` call fails with a propagated filesystem error
and returns no partial sequence of records. -/
theorem C6_readAll_failfast (d : Driver) (fs : FS) (c : String) (hc : c ≠ "")
    (fi : Entry) (hstat : statPath fs (goJoin [d.dir, c]) = .ok fi)
    (names : List String) (hrd : readDirFS fs (goJoin [d.dir, c]) = .ok names)
    (n : String) (hn : n ∈ names) (e : OsErr)
    (hf : readFileFS fs (goJoin [goJoin [d.dir, c], n]) = .error e) :
    ∃ e2, Driver.readAll d fs c =
      (.error (.osFail e2), [.ioStat (goJoin [d.dir, c]), .ioReadDir (goJoin [d.dir, c])]) := by
  obtain ⟨e2, he2⟩ := readLoop_error_of_mem fs (goJoin [d.dir, c]) names n hn e hf
  refine ⟨e2, ?_⟩
  unfold Driver.readAll
  rw [if_neg hc]
  dsimp only
  rw [hstat, hrd]
  dsimp only
  rw [he2]

/-- Witness for C6: one of the collection files has an injected permission
failure, so the whole call aborts with that error. -/
theorem C6_witness :
    ∃ e2, Driver.readAll ⟨"db", [], 0⟩
        ⟨[("db", .dir), ("db/c", .dir), ("db/c/r1.json", .file "x")], ["db/c/r1.json"]⟩ "c" =
      (.error (.osFail e2), [.ioStat (goJoin ["db", "c"]), .ioReadDir (goJoin ["db", "c"])]) :=
  C6_readAll_failfast ⟨"db", [], 0⟩
    ⟨[("db", .dir), ("db/c", .dir), ("db/c/r1.json", .file "x")], ["db/c/r1.json"]⟩ "c"
    (by decide) .dir (by decide) ["r1.json"] (by decide) "r1.json" (by decide)
    (.permission "db/c/r1.json") (by decide)

/-! ## Delete characterization helpers -/

theorem delete_probe_error_spec (d : Driver) (fs : FS) (c r : String) (hc : c ≠ "")
    (e : OsErr) (hstat : statPath fs (goJoin [d.dir, goJoin [c, r]]) = .error e) :
    Driver.delete d fs c r = (some (.notFound (deleteNotFoundMsg r c)),
      (d.getOrCreateMutex c).2.1, fs,
      [.lockGlobal, .regAccess c, .unlockGlobal, .lockColl c,
        .ioStat (goJoin [d.dir, goJoin [c, r]]), .unlockColl c]) := by
  unfold Driver.delete
  rw [if_neg hc]
  rcases hg : d.getOrCreateMutex c with ⟨mid, d1, tr0⟩
  have hdir := getOrCreateMutex_dir d c
  have htr := getOrCreateMutex_trace d c
  rw [hg] at hdir htr
  dsimp only at hdir htr ⊢
  rw [hdir, hstat, htr]
  rfl

theorem delete_removeAll_error_spec (d : Driver) (fs : FS) (c r : String) (hc : c ≠ "")
    (hstat : statPath fs (goJoin [d.dir, goJoin [c, r]]) = .ok .dir)
    (e : OsErr) (hrem : removeAllFS fs (goJoin [d.dir, goJoin [c, r]]) = .error e) :
    Driver.delete d fs c r = (some (.osFail e), (d.getOrCreateMutex c).2.1, fs,
      [.lockGlobal, .regAccess c, .unlockGlobal, .lockColl c,
        .ioStat (goJoin [d.dir, goJoin [c, r]]),
        .ioRemoveAll (goJoin [d.dir, goJoin [c, r]]), .unlockColl c]) := by
  unfold Driver.delete
  rw [if_neg hc]
  rcases hg : d.getOrCreateMutex c with ⟨mid, d1, tr0⟩
  have hdir := getOrCreateMutex_dir d c
  have htr := getOrCreateMutex_trace d c
  rw [hg] at hdir htr
  dsimp only at hdir htr ⊢
  rw [hdir, hstat]
  dsimp only
  rw [hrem, htr]
  rfl

theorem delete_removeAll_ok_spec (d : Driver) (fs : FS) (c r : String) (hc : c ≠ "")
    (hstat : statPath fs (goJoin [d.dir, goJoin [c, r]]) = .ok .dir)
    (fs1 : FS) (hrem : removeAllFS fs (goJoin [d.dir, goJoin [c, r]]) = .ok fs1) :
    Driver.delete d fs c r = (none, (d.getOrCreateMutex c).2.1, fs1,
      [.lockGlobal, .regAccess c, .unlockGlobal, .lockColl c,
        .ioStat (goJoin [d.dir, goJoin [c, r]]),
        .ioRemoveAll (goJoin [d.dir, goJoin [c, r]]), .unlockColl c]) := by
  unfold Driver.delete
  rw [if_neg hc]
  rcases hg : d.getOrCreateMutex c with ⟨mid, d1, tr0⟩
  have hdir := getOrCreateMutex_dir d c
  have htr := getOrCreateMutex_trace d c
  rw [hg] at hdir htr
  dsimp only at hdir htr ⊢
  rw [hdir, hstat]
  dsimp only
  rw [hrem, htr]
  rfl

theorem delete_remove_error_spec (d : Driver) (fs : FS) (c r : String) (hc : c ≠ "")
    (b : String) (hstat : statPath fs (goJoin [d.dir, goJoin [c, r]]) = .ok (.file b))
    (e : OsErr) (hrem : removeFS fs (goJoin [d.dir, goJoin [c, r]] ++ ".json") = .error e) :
    Driver.delete d fs c r = (some (.osFail e), (d.getOrCreateMutex c).2.1, fs,
      [.lockGlobal, .regAccess c, .unlockGlobal, .lockColl c,
        .ioStat (goJoin [d.dir, goJoin [c, r]]),
        .ioRemove (goJoin [d.dir, goJoin [c, r]] ++ ".json"), .unlockColl c]) := by
  unfold Driver.delete
  rw [if_neg hc]
  rcases hg : d.getOrCreateMutex c with ⟨mid, d1, tr0⟩
  have hdir := getOrCreateMutex_dir d c
  have htr := getOrCreateMutex_trace d c
  rw [hg] at hdir htr
  dsimp only at hdir htr ⊢
  rw [hdir, hstat]
  dsimp only
  rw [hrem, htr]
  rfl

theorem delete_remove_ok_spec (d : Driver) (fs : FS) (c r : String) (hc : c ≠ "")
    (b : String) (hstat : statPath fs (goJoin [d.dir, goJoin [c, r]]) = .ok (.file b))
    (fs1 : FS) (hrem : removeFS fs (goJoin [d.dir, goJoin [c, r]] ++ ".json") = .ok fs1) :
    Driver.delete d fs c r = (none, (d.getOrCreateMutex c).2.1, fs1,
      [.lockGlobal, .regAccess c, .unlockGlobal, .lockColl c,
        .ioStat (goJoin [d.dir, goJoin [c, r]]),
        .ioRemove (goJoin [d.dir, goJoin [c, r]] ++ ".json"), .unlockColl c]) := by
  unfold Driver.delete
  rw [if_neg hc]
  rcases hg : d.getOrCreateMutex c with ⟨mid, d1, tr0⟩
  have hdir := getOrCreateMutex_dir d c
  have htr := getOrCreateMutex_trace d c
  rw [hg] at hdir htr
  dsimp only at hdir htr ⊢
  rw [hdir, hstat]
  dsimp only
  rw [hrem, htr]
  rfl

/-! ## Claim C7 -/

/-- C7 amended: when the existence probe of `Delete` does not produce a
file info — because neither the bare nor the extension-qualified path
exists, or because the probe itself fails, e.g. on a permission error —
`Delete` fails with the not-found message naming the resource and the
collection; filesystem errors during the removal step itself are
propagated as io errors, never as the not-found message. -/
theorem C7_delete_errors (d : Driver) (fs : FS) (c r : String) (hc : c ≠ "") :
    (∀ e, statPath fs (goJoin [d.dir, goJoin [c, r]]) = .error e →
      Driver.delete d fs c r = (some (.notFound (deleteNotFoundMsg r c)),
        (d.getOrCreateMutex c).2.1, fs,
        [.lockGlobal, .regAccess c, .unlockGlobal, .lockColl c,
          .ioStat (goJoin [d.dir, goJoin [c, r]]), .unlockColl c])) ∧
    (statPath fs (goJoin [d.dir, goJoin [c, r]]) = .ok .dir →
      ∀ e, removeAllFS fs (goJoin [d.dir, goJoin [c, r]]) = .error e →
        Driver.delete d fs c r = (some (.osFail e), (d.getOrCreateMutex c).2.1, fs,
          [.lockGlobal, .regAccess c, .unlockGlobal, .lockColl c,
            .ioStat (goJoin [d.dir, goJoin [c, r]]),
            .ioRemoveAll (goJoin [d.dir, goJoin [c, r]]), .unlockColl c])) ∧
    (statPath fs (goJoin [d.dir, goJoin [c, r]]) = .ok .dir →
      ∀ fs1, removeAllFS fs (goJoin [d.dir, goJoin [c, r]]) = .ok fs1 →
        Driver.delete d fs c r = (none, (d.getOrCreateMutex c).2.1, fs1,
          [.lockGlobal, .regAccess c, .unlockGlobal, .lockColl c,
            .ioStat (goJoin [d.dir, goJoin [c, r]]),
            .ioRemoveAll (goJoin [d.dir, goJoin [c, r]]), .unlockColl c])) ∧
    (∀ b, statPath fs (goJoin [d.dir, goJoin [c, r]]) = .ok (.file b) →
      ∀ e, removeFS fs (goJoin [d.dir, goJoin [c, r]] ++ ".json") = .error e →
        Driver.delete d fs c r = (some (.osFail e), (d.getOrCreateMutex c).2.1, fs,
          [.lockGlobal, .regAccess c, .unlockGlobal, .lockColl c,
            .ioStat (goJoin [d.dir, goJoin [c, r]]),
            .ioRemove (goJoin [d.dir, goJoin [c, r]] ++ ".json"), .unlockColl c])) ∧
    (∀ b, statPath fs (goJoin [d.dir, goJoin [c, r]]) = .ok (.file b) →
      ∀ fs1, removeFS fs (goJoin [d.dir, goJoin [c, r]] ++ ".json") = .ok fs1 →
        Driver.delete d fs c r = (none, (d.getOrCreateMutex c).2.1, fs1,
          [.lockGlobal, .regAccess c, .unlockGlobal, .lockColl c,
            .ioStat (goJoin [d.dir, goJoin [c, r]]),
            .ioRemove (goJoin [d.dir, goJoin [c, r]] ++ ".json"), .unlockColl c])) :=
  ⟨fun e hstat => delete_probe_error_spec d fs c r hc e hstat,
    fun hstat e hrem => delete_removeAll_error_spec d fs c r hc hstat e hrem,
    fun hstat fs1 hrem => delete_removeAll_ok_spec d fs c r hc hstat fs1 hrem,
    fun b hstat e hrem => delete_remove_error_spec d fs c r hc b hstat e hrem,
    fun b hstat fs1 hrem => delete_remove_ok_spec d fs c r hc b hstat fs1 hrem⟩

/-- Witness for C7 on a concrete missing resource: the probe fails with
not-exist on both paths and `Delete` returns the not-found message. -/
theorem C7_witness :
    Driver.delete ⟨"db", [], 0⟩ ⟨[("db", .dir)], []⟩ "c" "r" =
      (some (.notFound (deleteNotFoundMsg "r" "c")), ⟨"db", [("c", 0)], 1⟩,
        ⟨[("db", .dir)], []⟩,
        [.lockGlobal, .regAccess "c", .unlockGlobal, .lockColl "c",
          .ioStat (goJoin ["db", goJoin ["c", "r"]]), .unlockColl "c"]) := by
  have h := (C7_delete_errors ⟨"db", [], 0⟩ ⟨[("db", .dir)], []⟩ "c" "r" (by decide)).1
    (.notExist (goJoin ["db", goJoin ["c", "r"]] ++ ".json")) (by decide)
  exact h.trans (by decide)

/-- C7 counterexample: a permission failure while probing (an injected
fault at the bare path) is reported with the not-found message instead of
surfacing as an io error, contradicting the claim that only a missing
target produces NotFoundError. -/
theorem C7_counterexample :
    statPath ⟨[("db", .dir)], ["db/c/r"]⟩ "db/c/r" = .error (.permission "db/c/r") ∧
    (Driver.delete ⟨"db", [], 0⟩ ⟨[("db", .dir)], ["db/c/r"]⟩ "c" "r").1 =
      some (.notFound (deleteNotFoundMsg "r" "c")) := by decide

/-! ## Read characterization helpers -/

theorem read_ok_spec {V : Type} (C : Codec V) (d : Driver) (fs : FS) (c r : String)
    (hc : c ≠ "") (hr : r ≠ "") (fi : Entry)
    (hstat : statPath fs (goJoin [d.dir, c, r]) = .ok fi)
    (b : String) (v : V) (hread : readFileFS fs (goJoin [d.dir, c, r] ++ ".json") = .ok b)
    (hum : C.unmarshal b = some v) :
    Driver.read C d fs c r = (.ok v,
      [.ioStat (goJoin [d.dir, c, r]), .ioReadFile (goJoin [d.dir, c, r] ++ ".json")]) := by
  unfold Driver.read
  rw [if_neg hc, if_neg hr]
  dsimp only
  rw [hstat]
  dsimp only
  rw [hread]
  dsimp only
  rw [hum]

theorem read_file_error_spec {V : Type} (C : Codec V) (d : Driver) (fs : FS) (c r : String)
    (hc : c ≠ "") (hr : r ≠ "") (fi : Entry)
    (hstat : statPath fs (goJoin [d.dir, c, r]) = .ok fi)
    (e : OsErr) (hread : readFileFS fs (goJoin [d.dir, c, r] ++ ".json") = .error e) :
    Driver.read C d fs c r = (.error (.osFail e),
      [.ioStat (goJoin [d.dir, c, r]), .ioReadFile (goJoin [d.dir, c, r] ++ ".json")]) := by
  unfold Driver.read
  rw [if_neg hc, if_neg hr]
  dsimp only
  rw [hstat]
  dsimp only
  rw [hread]

theorem read_stat_error_spec {V : Type} (C : Codec V) (d : Driver) (fs : FS) (c r : String)
    (hc : c ≠ "") (hr : r ≠ "") (e : OsErr)
    (hstat : statPath fs (goJoin [d.dir, c, r]) = .error e) :
    Driver.read C d fs c r = (.error (.osFail e), [.ioStat (goJoin [d.dir, c, r])]) := by
  unfold Driver.read
  rw [if_neg hc, if_neg hr]
  dsimp only
  rw [hstat]

/-! ## Claim C4 -/

/-- C4 amended: the probe consults the bare path and then the
extension-qualified path, but regardless of which probe succeeded the
content is always read from the extension-qualified path; when neither
probe target exists, `Read` fails with the propagated not-exist error. -/
theorem C4_read_resolution {V : Type} (C : Codec V) (d : Driver) (fs : FS) (c r : String)
    (hc : c ≠ "") (hr : r ≠ "") :
    (osStat fs (goJoin [d.dir, c, r]) = .error (.notExist (goJoin [d.dir, c, r])) →
      osStat fs (goJoin [d.dir, c, r] ++ ".json") =
        .error (.notExist (goJoin [d.dir, c, r] ++ ".json")) →
      Driver.read C d fs c r =
        (.error (.osFail (.notExist (goJoin [d.dir, c, r] ++ ".json"))),
          [.ioStat (goJoin [d.dir, c, r])])) ∧
    (∀ fi, statPath fs (goJoin [d.dir, c, r]) = .ok fi →
      ∀ b v, readFileFS fs (goJoin [d.dir, c, r] ++ ".json") = .ok b →
        C.unmarshal b = some v →
        Driver.read C d fs c r = (.ok v,
          [.ioStat (goJoin [d.dir, c, r]), .ioReadFile (goJoin [d.dir, c, r] ++ ".json")])) ∧
    (∀ fi, statPath fs (goJoin [d.dir, c, r]) = .ok fi →
      ∀ e, readFileFS fs (goJoin [d.dir, c, r] ++ ".json") = .error e →
        Driver.read C d fs c r = (.error (.osFail e),
          [.ioStat (goJoin [d.dir, c, r]), .ioReadFile (goJoin [d.dir, c, r] ++ ".json")])) := by
  refine ⟨?_, ?_, ?_⟩
  · intro h1 h2
    have hsp : statPath fs (goJoin [d.dir, c, r]) =
        .error (.notExist (goJoin [d.dir, c, r] ++ ".json")) := by
      unfold statPath
      rw [h1]
      dsimp only [OsErr.isNotExist]
      rw [if_pos rfl, h2]
    exact read_stat_error_spec C d fs c r hc hr _ hsp
  · intro fi hstat b v hread hum
    exact read_ok_spec C d fs c r hc hr fi hstat b v hread hum
  · intro fi hstat e hread
    exact read_file_error_spec C d fs c r hc hr fi hstat e hread

/-- Witness for C4: the bare path is absent, the probe falls through to
the extension-qualified file and its content is decoded. -/
theorem C4_witness :
    Driver.read natCodec ⟨"db", [], 0⟩
        ⟨[("db", .dir), ("db/c", .dir), ("db/c/r.json", .file "7\n")], []⟩ "c" "r" =
      (.ok 7, [.ioStat (goJoin ["db", "c", "r"]),
        .ioReadFile (goJoin ["db", "c", "r"] ++ ".json")]) :=
  (C4_read_resolution natCodec ⟨"db", [], 0⟩
      ⟨[("db", .dir), ("db/c", .dir), ("db/c/r.json", .file "7\n")], []⟩ "c" "r"
      (by decide) (by decide)).2.1
    (.file "7\n") (by decide) "7\n" 7 (by decide) (by decide)

/-- C4 counterexample: the bare path exists as a regular file with content
but the extension-qualified file is absent; the claim says the bare path
is then treated as fully qualified and its content read, yet `Read` fails
with a not-exist error on the extension-qualified path. -/
theorem C4_counterexample :
    lookupFS ⟨[("db", .dir), ("db/c", .dir), ("db/c/r", .file "A")], []⟩ "db/c/r" =
      some (.file "A") ∧
    (Driver.read natCodec ⟨"db", [], 0⟩
        ⟨[("db", .dir), ("db/c", .dir), ("db/c/r", .file "A")], []⟩ "c" "r").1 =
      .error (.osFail (.notExist "db/c/r.json")) := by decide

/-! ## RemoveAll lookup lemmas -/

theorem removeAllFS_ok_shape (fs : FS) (p : String) (fs1 : FS)
    (h : removeAllFS fs p = .ok fs1) :
    fs1 = ⟨fs.entries.filter (fun x => !(x.1 == p || underDir p x.1)), fs.errPaths⟩ := by
  unfold removeAllFS at h
  split at h
  · exact absurd h (by simp)
  · simpa using h.symm

theorem lookup_removeAll_hit (fs : FS) (p q : String) (fs1 : FS)
    (h : removeAllFS fs p = .ok fs1) (hq : q = p ∨ underDir p q = true) :
    lookupFS fs1 q = none := by
  rw [removeAllFS_ok_shape fs p fs1 h]
  unfold lookupFS
  rw [find?_eq_none_of]
  · rfl
  · intro e he heq
    have hmem := (List.mem_filter.mp he).2
    rw [heq] at hmem
    rcases hq with hq | hq
    · rw [hq] at hmem; simp at hmem
    · rw [hq] at hmem; simp at hmem

theorem lookup_removeAll_absent (fs : FS) (p q : String) (fs1 : FS)
    (h : removeAllFS fs p = .ok fs1) (hq : lookupFS fs q = none) :
    lookupFS fs1 q = none := by
  rw [removeAllFS_ok_shape fs p fs1 h]
  have hfind : fs.entries.find? (fun x => x.1 == q) = none := by
    unfold lookupFS at hq
    cases hf : fs.entries.find? (fun x => x.1 == q) with
    | none => rfl
    | some e => rw [hf] at hq; exact absurd hq (by simp)
  unfold lookupFS
  rw [find?_eq_none_of]
  · rfl
  · intro e he heq
    have hel := (List.mem_filter.mp he).1
    have := List.find?_eq_none.mp hfind e hel
    simp [heq] at this

/-! ## Claim C5 -/

/-- C5 amended: deleting a whole collection (empty resource) on a store
where the collection directory exists removes the directory and every
entry below it, and a subsequent `ReadAll` fails with the not-exist error
— provided no entry sits at the extension-qualified sibling path of the
collection directory (and the involved paths carry no injected faults). -/
theorem C5_delete_whole_collection (d : Driver) (fs : FS) (c : String) (hc : SimpleName c)
    (hdir : lookupFS fs (goJoin [d.dir, c]) = some .dir)
    (hne1 : fs.errPaths.contains (goJoin [d.dir, c]) = false)
    (hne2 : fs.errPaths.contains (goJoin [d.dir, c] ++ ".json") = false)
    (hsib : lookupFS fs (goJoin [d.dir, c] ++ ".json") = none) :
    ∃ fs1, Driver.delete d fs c "" = (none, (d.getOrCreateMutex c).2.1, fs1,
        [.lockGlobal, .regAccess c, .unlockGlobal, .lockColl c,
          .ioStat (goJoin [d.dir, c]), .ioRemoveAll (goJoin [d.dir, c]), .unlockColl c]) ∧
      (∀ q, (q = goJoin [d.dir, c] ∨ underDir (goJoin [d.dir, c]) q = true) →
        lookupFS fs1 q = none) ∧
      (Driver.readAll ((d.getOrCreateMutex c).2.1) fs1 c).1 =
        .error (.osFail (.notExist (goJoin [d.dir, c] ++ ".json"))) := by
  have hcne : c ≠ "" := hc.1
  have hpath : goJoin [c, ""] = c := by
    rw [goJoin_two c "" hcne,
      show c ++ "/" ++ "" = c ++ "/" from by rw [str_eq_iff_data]; simp [data_append],
      goClean_trailing c hcne, goClean_simple c hc]
  have hstat : statPath fs (goJoin [d.dir, c]) = .ok .dir := by
    have h1 : osStat fs (goJoin [d.dir, c]) = .ok .dir := by
      unfold osStat
      rw [if_neg (by rw [hne1]; simp), hdir]
    unfold statPath
    rw [h1]
  have hrem : removeAllFS fs (goJoin [d.dir, c]) =
      .ok ⟨fs.entries.filter
        (fun x => !(x.1 == goJoin [d.dir, c] || underDir (goJoin [d.dir, c]) x.1)),
        fs.errPaths⟩ := by
    unfold removeAllFS
    rw [if_neg (by rw [hne1]; simp)]
  refine ⟨⟨fs.entries.filter
      (fun x => !(x.1 == goJoin [d.dir, c] || underDir (goJoin [d.dir, c]) x.1)),
      fs.errPaths⟩, ?_, ?_, ?_⟩
  · have hdel := delete_removeAll_ok_spec d fs c "" hcne
      (by rw [hpath]; exact hstat) _ (by rw [hpath]; exact hrem)
    rw [hpath] at hdel
    exact hdel
  · intro q hq
    exact lookup_removeAll_hit fs (goJoin [d.dir, c]) q _ hrem hq
  · have hdir2 : ((d.getOrCreateMutex c).2.1).dir = d.dir := getOrCreateMutex_dir d c
    have hstat2 : statPath
        ⟨fs.entries.filter
          (fun x => !(x.1 == goJoin [d.dir, c] || underDir (goJoin [d.dir, c]) x.1)),
          fs.errPaths⟩ (goJoin [d.dir, c]) =
        .error (.notExist (goJoin [d.dir, c] ++ ".json")) := by
      have hl1 : lookupFS ⟨fs.entries.filter
          (fun x => !(x.1 == goJoin [d.dir, c] || underDir (goJoin [d.dir, c]) x.1)),
          fs.errPaths⟩ (goJoin [d.dir, c]) = none :=
        lookup_removeAll_hit fs (goJoin [d.dir, c]) _ _ hrem (Or.inl rfl)
      have hl2 : lookupFS ⟨fs.entries.filter
          (fun x => !(x.1 == goJoin [d.dir, c] || underDir (goJoin [d.dir, c]) x.1)),
          fs.errPaths⟩ (goJoin [d.dir, c] ++ ".json") = none :=
        lookup_removeAll_absent fs (goJoin [d.dir, c]) _ _ hrem hsib
      unfold statPath
      rw [show osStat ⟨fs.entries.filter
          (fun x => !(x.1 == goJoin [d.dir, c] || underDir (goJoin [d.dir, c]) x.1)),
          fs.errPaths⟩ (goJoin [d.dir, c]) =
          .error (.notExist (goJoin [d.dir, c])) from by
        unfold osStat
        rw [if_neg (by rw [show FS.errPaths ⟨_, fs.errPaths⟩ = fs.errPaths from rfl, hne1]; simp),
          hl1]]
      dsimp only [OsErr.isNotExist]
      rw [if_pos rfl]
      unfold osStat
      rw [if_neg (by rw [show FS.errPaths ⟨_, fs.errPaths⟩ = fs.errPaths from rfl, hne2]; simp),
        hl2]
    unfold Driver.readAll
    rw [if_neg hcne]
    dsimp only
    rw [hdir2, hstat2]

/-- Witness for C5 at a concrete store with one record. -/
theorem C5_witness :
    ∃ fs1, Driver.delete ⟨"db", [], 0⟩
        ⟨[("db", .dir), ("db/c", .dir), ("db/c/r.json", .file "1")], []⟩ "c" "" =
      (none, ((⟨"db", [], 0⟩ : Driver).getOrCreateMutex "c").2.1, fs1,
        [.lockGlobal, .regAccess "c", .unlockGlobal, .lockColl "c",
          .ioStat (goJoin ["db", "c"]), .ioRemoveAll (goJoin ["db", "c"]), .unlockColl "c"]) ∧
      (∀ q, (q = goJoin ["db", "c"] ∨ underDir (goJoin ["db", "c"]) q = true) →
        lookupFS fs1 q = none) ∧
      (Driver.readAll ((⟨"db", [], 0⟩ : Driver).getOrCreateMutex "c").2.1 fs1 "c").1 =
        .error (.osFail (.notExist (goJoin ["db", "c"] ++ ".json"))) :=
  C5_delete_whole_collection ⟨"db", [], 0⟩
    ⟨[("db", .dir), ("db/c", .dir), ("db/c/r.json", .file "1")], []⟩ "c"
    (by decide) (by decide) (by decide) (by decide) (by decide)

/-- C5 counterexample: with a stray file at the extension-qualified
sibling path of the collection directory, deleting the whole collection
succeeds and removes the directory, yet the subsequent `ReadAll` returns
an empty sequence with success instead of failing with a not-found
error. -/
theorem C5_counterexample :
    lookupFS ⟨[("db", .dir), ("db/c", .dir), ("db/c/r.json", .file "1"),
        ("db/c.json", .file "x")], []⟩ "db/c" = some .dir ∧
    (Driver.delete ⟨"db", [], 0⟩ ⟨[("db", .dir), ("db/c", .dir), ("db/c/r.json", .file "1"),
        ("db/c.json", .file "x")], []⟩ "c" "").1 = none ∧
    lookupFS (Driver.delete ⟨"db", [], 0⟩ ⟨[("db", .dir), ("db/c", .dir),
        ("db/c/r.json", .file "1"), ("db/c.json", .file "x")], []⟩ "c" "").2.2.1 "db/c" =
      none ∧
    (Driver.readAll (Driver.delete ⟨"db", [], 0⟩ ⟨[("db", .dir), ("db/c", .dir),
        ("db/c/r.json", .file "1"), ("db/c.json", .file "x")], []⟩ "c" "").2.1
      (Driver.delete ⟨"db", [], 0⟩ ⟨[("db", .dir), ("db/c", .dir),
        ("db/c/r.json", .file "1"), ("db/c.json", .file "x")], []⟩ "c" "").2.2.1 "c").1 =
      .ok [] := by decide

/-! ## Write characterization helpers -/

theorem write_mkdir_error_spec {V : Type} (C : Codec V) (d : Driver) (fs : FS) (c r : String)
    (v : V) (hc : c ≠ "") (hr : r ≠ "") (e : OsErr) (fsA : FS)
    (hmk : mkdirAllFS ((goJoin [d.dir, c]).length + 2) fs (goJoin [d.dir, c]) = (some e, fsA)) :
    Driver.write C d fs c r v = (some (.osFail e), (d.getOrCreateMutex c).2.1, fsA,
      [.lockGlobal, .regAccess c, .unlockGlobal, .lockColl c,
        .ioMkdirAll (goJoin [d.dir, c]), .unlockColl c]) := by
  unfold Driver.write
  rw [if_neg hc, if_neg hr]
  rcases hg : d.getOrCreateMutex c with ⟨mid, d1, tr0⟩
  have hdir := getOrCreateMutex_dir d c
  have htr := getOrCreateMutex_trace d c
  rw [hg] at hdir htr
  dsimp only at hdir htr ⊢
  rw [hdir, hmk, htr]
  rfl

theorem write_marshal_none_spec {V : Type} (C : Codec V) (d : Driver) (fs : FS) (c r : String)
    (v : V) (hc : c ≠ "") (hr : r ≠ "") (fsA : FS)
    (hmk : mkdirAllFS ((goJoin [d.dir, c]).length + 2) fs (goJoin [d.dir, c]) = (none, fsA))
    (hm : C.marshal v = none) :
    Driver.write C d fs c r v = (some .marshalFail, (d.getOrCreateMutex c).2.1, fsA,
      [.lockGlobal, .regAccess c, .unlockGlobal, .lockColl c,
        .ioMkdirAll (goJoin [d.dir, c]), .unlockColl c]) := by
  unfold Driver.write
  rw [if_neg hc, if_neg hr]
  rcases hg : d.getOrCreateMutex c with ⟨mid, d1, tr0⟩
  have hdir := getOrCreateMutex_dir d c
  have htr := getOrCreateMutex_trace d c
  rw [hg] at hdir htr
  dsimp only at hdir htr ⊢
  rw [hdir, hmk]
  dsimp only
  rw [hm, htr]
  rfl

theorem write_writefile_error_spec {V : Type} (C : Codec V) (d : Driver) (fs : FS)
    (c r : String) (v : V) (hc : c ≠ "") (hr : r ≠ "") (fsA : FS)
    (hmk : mkdirAllFS ((goJoin [d.dir, c]).length + 2) fs (goJoin [d.dir, c]) = (none, fsA))
    (s : String) (hm : C.marshal v = some s) (e : OsErr)
    (hwf : writeFileFS fsA (goJoin [goJoin [d.dir, c], r ++ ".json"] ++ ".tmp") (s ++ "\n") =
      .error e) :
    Driver.write C d fs c r v = (some (.osFail e), (d.getOrCreateMutex c).2.1, fsA,
      [.lockGlobal, .regAccess c, .unlockGlobal, .lockColl c,
        .ioMkdirAll (goJoin [d.dir, c]),
        .ioWriteFile (goJoin [goJoin [d.dir, c], r ++ ".json"] ++ ".tmp"), .unlockColl c]) := by
  unfold Driver.write
  rw [if_neg hc, if_neg hr]
  rcases hg : d.getOrCreateMutex c with ⟨mid, d1, tr0⟩
  have hdir := getOrCreateMutex_dir d c
  have htr := getOrCreateMutex_trace d c
  rw [hg] at hdir htr
  dsimp only at hdir htr ⊢
  rw [hdir, hmk]
  dsimp only
  rw [hm]
  dsimp only
  rw [hwf, htr]
  rfl

theorem write_rename_error_spec {V : Type} (C : Codec V) (d : Driver) (fs : FS)
    (c r : String) (v : V) (hc : c ≠ "") (hr : r ≠ "") (fsA : FS)
    (hmk : mkdirAllFS ((goJoin [d.dir, c]).length + 2) fs (goJoin [d.dir, c]) = (none, fsA))
    (s : String) (hm : C.marshal v = some s) (fs2 : FS)
    (hwf : writeFileFS fsA (goJoin [goJoin [d.dir, c], r ++ ".json"] ++ ".tmp") (s ++ "\n") =
      .ok fs2) (e : OsErr)
    (hrn : renameFS fs2 (goJoin [goJoin [d.dir, c], r ++ ".json"] ++ ".tmp")
      (goJoin [goJoin [d.dir, c], r ++ ".json"]) = .error e) :
    Driver.write C d fs c r v = (some (.osFail e), (d.getOrCreateMutex c).2.1, fs2,
      [.lockGlobal, .regAccess c, .unlockGlobal, .lockColl c,
        .ioMkdirAll (goJoin [d.dir, c]),
        .ioWriteFile (goJoin [goJoin [d.dir, c], r ++ ".json"] ++ ".tmp"),
        .ioRename (goJoin [goJoin [d.dir, c], r ++ ".json"] ++ ".tmp")
          (goJoin [goJoin [d.dir, c], r ++ ".json"]), .unlockColl c]) := by
  unfold Driver.write
  rw [if_neg hc, if_neg hr]
  rcases hg : d.getOrCreateMutex c with ⟨mid, d1, tr0⟩
  have hdir := getOrCreateMutex_dir d c
  have htr := getOrCreateMutex_trace d c
  rw [hg] at hdir htr
  dsimp only at hdir htr ⊢
  rw [hdir, hmk]
  dsimp only
  rw [hm]
  dsimp only
  rw [hwf]
  dsimp only
  rw [hrn, htr]
  rfl

theorem write_success_spec {V : Type} (C : Codec V) (d : Driver) (fs : FS)
    (c r : String) (v : V) (hc : c ≠ "") (hr : r ≠ "") (fsA : FS)
    (hmk : mkdirAllFS ((goJoin [d.dir, c]).length + 2) fs (goJoin [d.dir, c]) = (none, fsA))
    (s : String) (hm : C.marshal v = some s) (fs2 : FS)
    (hwf : writeFileFS fsA (goJoin [goJoin [d.dir, c], r ++ ".json"] ++ ".tmp") (s ++ "\n") =
      .ok fs2) (fs3 : FS)
    (hrn : renameFS fs2 (goJoin [goJoin [d.dir, c], r ++ ".json"] ++ ".tmp")
      (goJoin [goJoin [d.dir, c], r ++ ".json"]) = .ok fs3) :
    Driver.write C d fs c r v = (none, (d.getOrCreateMutex c).2.1, fs3,
      [.lockGlobal, .regAccess c, .unlockGlobal, .lockColl c,
        .ioMkdirAll (goJoin [d.dir, c]),
        .ioWriteFile (goJoin [goJoin [d.dir, c], r ++ ".json"] ++ ".tmp"),
        .ioRename (goJoin [goJoin [d.dir, c], r ++ ".json"] ++ ".tmp")
          (goJoin [goJoin [d.dir, c], r ++ ".json"]), .unlockColl c]) := by
  unfold Driver.write
  rw [if_neg hc, if_neg hr]
  rcases hg : d.getOrCreateMutex c with ⟨mid, d1, tr0⟩
  have hdir := getOrCreateMutex_dir d c
  have htr := getOrCreateMutex_trace d c
  rw [hg] at hdir htr
  dsimp only at hdir htr ⊢
  rw [hdir, hmk]
  dsimp only
  rw [hm]
  dsimp only
  rw [hwf]
  dsimp only
  rw [hrn, htr]
  rfl

theorem append_tmp_ne (p : String) : p ++ ".tmp" ≠ p := by
  intro h
  have := congrArg (fun s => s.data.length) h
  simp [data_append] at this

theorem dirOf_append_tmp (p : String) : dirOf (p ++ ".tmp") = dirOf p := by
  unfold dirOf
  have h1 : (p ++ ".tmp").data.reverse = 'p' :: 'm' :: 't' :: '.' :: p.data.reverse := by
    rw [data_append, List.reverse_append]
    rfl
  rw [h1]
  rfl

/-! ## Claim C3 -/

/-- C3: `Write` puts the serialized bytes into a temporary sibling file —
the final path extended with the tmp suffix, living in the same directory
— and then renames it over the final resource path, in that order in the
event trace; consequently, whenever `Write` returns an error, a file is
present at the final resource path afterwards if and only if it was
present before with exactly that content: the previous version survives
intact, an absent resource stays absent, and never does a partially
written document appear; on success the final path holds the complete
serialized document. -/
theorem C3_write_temp_then_rename {V : Type} (C : Codec V) (d : Driver) (fs : FS)
    (c r : String) (v : V) (hc : c ≠ "") (hr : r ≠ "") :
    (∀ e d1 fs1 tr, Driver.write C d fs c r v = (some e, d1, fs1, tr) →
      ∀ b, lookupFS fs1 (goJoin [goJoin [d.dir, c], r ++ ".json"]) = some (.file b) ↔
        lookupFS fs (goJoin [goJoin [d.dir, c], r ++ ".json"]) = some (.file b)) ∧
    (∀ d1 fs1 tr, Driver.write C d fs c r v = (none, d1, fs1, tr) →
      (∃ s, C.marshal v = some s ∧
        lookupFS fs1 (goJoin [goJoin [d.dir, c], r ++ ".json"]) = some (.file (s ++ "\n"))) ∧
      tr = [.lockGlobal, .regAccess c, .unlockGlobal, .lockColl c,
        .ioMkdirAll (goJoin [d.dir, c]),
        .ioWriteFile (goJoin [goJoin [d.dir, c], r ++ ".json"] ++ ".tmp"),
        .ioRename (goJoin [goJoin [d.dir, c], r ++ ".json"] ++ ".tmp")
          (goJoin [goJoin [d.dir, c], r ++ ".json"]), .unlockColl c] ∧
      dirOf (goJoin [goJoin [d.dir, c], r ++ ".json"] ++ ".tmp") =
        dirOf (goJoin [goJoin [d.dir, c], r ++ ".json"])) := by
  constructor
  · intro e d1 fs1 tr hw b
    rcases hmk : mkdirAllFS ((goJoin [d.dir, c]).length + 2) fs (goJoin [d.dir, c])
      with ⟨o, fsA⟩
    have hiffA : lookupFS fsA (goJoin [goJoin [d.dir, c], r ++ ".json"]) = some (.file b) ↔
        lookupFS fs (goJoin [goJoin [d.dir, c], r ++ ".json"]) = some (.file b) := by
      constructor
      · intro hh
        refine mkdirAllFS_file_lookup ((goJoin [d.dir, c]).length + 2) fs (goJoin [d.dir, c])
          (goJoin [goJoin [d.dir, c], r ++ ".json"]) b ?_
        rw [hmk]
        exact hh
      · intro hh
        have := mkdirAllFS_file_preserved ((goJoin [d.dir, c]).length + 2) fs
          (goJoin [d.dir, c]) (goJoin [goJoin [d.dir, c], r ++ ".json"]) b hh
        rw [hmk] at this
        exact this
    cases o with
    | some e2 =>
      rw [write_mkdir_error_spec C d fs c r v hc hr e2 fsA hmk] at hw
      simp only [Prod.mk.injEq] at hw
      rw [← hw.2.2.1]
      exact hiffA
    | none =>
      cases hm : C.marshal v with
      | none =>
        rw [write_marshal_none_spec C d fs c r v hc hr fsA hmk hm] at hw
        simp only [Prod.mk.injEq] at hw
        rw [← hw.2.2.1]
        exact hiffA
      | some s =>
        cases hwf : writeFileFS fsA (goJoin [goJoin [d.dir, c], r ++ ".json"] ++ ".tmp")
            (s ++ "\n") with
        | error e3 =>
          rw [write_writefile_error_spec C d fs c r v hc hr fsA hmk s hm e3 hwf] at hw
          simp only [Prod.mk.injEq] at hw
          rw [← hw.2.2.1]
          exact hiffA
        | ok fs2 =>
          cases hrn : renameFS fs2 (goJoin [goJoin [d.dir, c], r ++ ".json"] ++ ".tmp")
              (goJoin [goJoin [d.dir, c], r ++ ".json"]) with
          | error e4 =>
            rw [write_rename_error_spec C d fs c r v hc hr fsA hmk s hm fs2 hwf e4 hrn] at hw
            simp only [Prod.mk.injEq] at hw
            rw [← hw.2.2.1]
            rw [writeFileFS_ok_shape fsA _ _ fs2 hwf]
            rw [lookup_insertFS_ne fsA
              (goJoin [goJoin [d.dir, c], r ++ ".json"] ++ ".tmp")
              (goJoin [goJoin [d.dir, c], r ++ ".json"]) _
              (Ne.symm (append_tmp_ne (goJoin [goJoin [d.dir, c], r ++ ".json"])))]
            exact hiffA
          | ok fs3 =>
            rw [write_success_spec C d fs c r v hc hr fsA hmk s hm fs2 hwf fs3 hrn] at hw
            simp at hw
  · intro d1 fs1 tr hw
    rcases hmk : mkdirAllFS ((goJoin [d.dir, c]).length + 2) fs (goJoin [d.dir, c])
      with ⟨o, fsA⟩
    cases o with
    | some e2 =>
      rw [write_mkdir_error_spec C d fs c r v hc hr e2 fsA hmk] at hw
      simp at hw
    | none =>
      cases hm : C.marshal v with
      | none =>
        rw [write_marshal_none_spec C d fs c r v hc hr fsA hmk hm] at hw
        simp at hw
      | some s =>
        cases hwf : writeFileFS fsA (goJoin [goJoin [d.dir, c], r ++ ".json"] ++ ".tmp")
            (s ++ "\n") with
        | error e3 =>
          rw [write_writefile_error_spec C d fs c r v hc hr fsA hmk s hm e3 hwf] at hw
          simp at hw
        | ok fs2 =>
          cases hrn : renameFS fs2 (goJoin [goJoin [d.dir, c], r ++ ".json"] ++ ".tmp")
              (goJoin [goJoin [d.dir, c], r ++ ".json"]) with
          | error e4 =>
            rw [write_rename_error_spec C d fs c r v hc hr fsA hmk s hm fs2 hwf e4 hrn] at hw
            simp at hw
          | ok fs3 =>
            rw [write_success_spec C d fs c r v hc hr fsA hmk s hm fs2 hwf fs3 hrn] at hw
            simp only [Prod.mk.injEq, true_and] at hw
            obtain ⟨hd1, hfs3, htr⟩ := hw
            refine ⟨⟨s, rfl, ?_⟩, htr.symm, dirOf_append_tmp _⟩
            rw [← hfs3]
            obtain ⟨e0, he0, hshape⟩ := renameFS_ok_shape fs2 _ _ fs3 hrn
            rw [writeFileFS_ok_shape fsA _ _ fs2 hwf, lookup_insertFS_self] at he0
            have he0v : e0 = .file (s ++ "\n") := by
              have := he0.symm
              simpa using this
            rw [hshape, he0v, lookup_insertFS_self]

/-- Witness for C3 at a concrete write: the document lands at the final
path with the serialized content, and the trace shows the temp write
before the rename. -/
theorem C3_witness :
    (∃ s, natCodec.marshal 3 = some s ∧
      lookupFS (Driver.write natCodec ⟨"db", [], 0⟩ ⟨[("db", .dir)], []⟩ "users" "john" 3).2.2.1
        (goJoin [goJoin ["db", "users"], "john" ++ ".json"]) = some (.file (s ++ "\n"))) ∧
    (Driver.write natCodec ⟨"db", [], 0⟩ ⟨[("db", .dir)], []⟩ "users" "john" 3).2.2.2 =
      [.lockGlobal, .regAccess "users", .unlockGlobal, .lockColl "users",
        .ioMkdirAll (goJoin ["db", "users"]),
        .ioWriteFile (goJoin [goJoin ["db", "users"], "john" ++ ".json"] ++ ".tmp"),
        .ioRename (goJoin [goJoin ["db", "users"], "john" ++ ".json"] ++ ".tmp")
          (goJoin [goJoin ["db", "users"], "john" ++ ".json"]), .unlockColl "users"] ∧
    dirOf (goJoin [goJoin ["db", "users"], "john" ++ ".json"] ++ ".tmp") =
      dirOf (goJoin [goJoin ["db", "users"], "john" ++ ".json"]) :=
  (C3_write_temp_then_rename natCodec ⟨"db", [], 0⟩ ⟨[("db", .dir)], []⟩ "users" "john" 3
      (by decide) (by decide)).2
    (Driver.write natCodec ⟨"db", [], 0⟩ ⟨[("db", .dir)], []⟩ "users" "john" 3).2.1
    (Driver.write natCodec ⟨"db", [], 0⟩ ⟨[("db", .dir)], []⟩ "users" "john" 3).2.2.1
    (Driver.write natCodec ⟨"db", [], 0⟩ ⟨[("db", .dir)], []⟩ "users" "john" 3).2.2.2
    (by decide)

/-! ## Claim C1 -/

/-- C1 amended: for a nonempty collection name, a plain resource name
(nonempty, without path separator, not one of the dot components), and a
serializable value — one whose marshalled form unmarshals back after the
appended newline — a successful `Write` followed by `Read` on the
resulting store returns the value written, on any store whose root is
nonempty and whose involved paths carry no injected faults. -/
theorem C1_write_read_roundtrip {V : Type} (C : Codec V) (d : Driver) (fs : FS)
    (c r : String) (v : V) (s : String)
    (hdd : d.dir ≠ "") (hc : c ≠ "") (hr : SimpleName r)
    (hm : C.marshal v = some s) (hu : C.unmarshal (s ++ "\n") = some v)
    (hfr : fs.errPaths.contains (goJoin [d.dir, c, r]) = false)
    (hff : fs.errPaths.contains (goJoin [d.dir, c, r] ++ ".json") = false)
    (d1 : Driver) (fs1 : FS) (tr : List Ev)
    (hw : Driver.write C d fs c r v = (none, d1, fs1, tr)) :
    (Driver.read C d1 fs1 c r).1 = .ok v := by
  have hrne : r ≠ "" := hr.1
  rcases hmk : mkdirAllFS ((goJoin [d.dir, c]).length + 2) fs (goJoin [d.dir, c])
    with ⟨o, fsA⟩
  cases o with
  | some e2 =>
    rw [write_mkdir_error_spec C d fs c r v hc hrne e2 fsA hmk] at hw
    simp at hw
  | none =>
    cases hm2 : C.marshal v with
    | none =>
      rw [hm2] at hm
      exact absurd hm (by simp)
    | some s2 =>
      have hs2 : s2 = s := by
        rw [hm2] at hm
        simpa using hm
      rw [hs2] at hm2
      cases hwf : writeFileFS fsA (goJoin [goJoin [d.dir, c], r ++ ".json"] ++ ".tmp")
          (s ++ "\n") with
      | error e3 =>
        rw [write_writefile_error_spec C d fs c r v hc hrne fsA hmk s hm2 e3 hwf] at hw
        simp at hw
      | ok fs2 =>
        cases hrn : renameFS fs2 (goJoin [goJoin [d.dir, c], r ++ ".json"] ++ ".tmp")
            (goJoin [goJoin [d.dir, c], r ++ ".json"]) with
        | error e4 =>
          rw [write_rename_error_spec C d fs c r v hc hrne fsA hmk s hm2 fs2 hwf e4 hrn] at hw
          simp at hw
        | ok fs3 =>
          rw [write_success_spec C d fs c r v hc hrne fsA hmk s hm2 fs2 hwf fs3 hrn] at hw
          simp only [Prod.mk.injEq, true_and] at hw
          obtain ⟨hd1, hfs1, htr⟩ := hw
          obtain ⟨e0, he0, hshape⟩ := renameFS_ok_shape fs2 _ _ fs3 hrn
          rw [writeFileFS_ok_shape fsA _ _ fs2 hwf, lookup_insertFS_self] at he0
          have he0v : e0 = .file (s ++ "\n") := by simpa using he0.symm
          have hlookF : lookupFS fs3 (goJoin [goJoin [d.dir, c], r ++ ".json"]) =
              some (.file (s ++ "\n")) := by
            rw [hshape, he0v, lookup_insertFS_self]
          have herr3 : fs3.errPaths = fs.errPaths := by
            rw [hshape, errPaths_insertFS, errPaths_removeKeyFS,
              writeFileFS_ok_shape fsA _ _ fs2 hwf, errPaths_insertFS]
            have := mkdirAllFS_errPaths ((goJoin [d.dir, c]).length + 2) fs (goJoin [d.dir, c])
            rw [hmk] at this
            exact this
          have hFR : goJoin [goJoin [d.dir, c], r ++ ".json"] = goJoin [d.dir, c, r] ++ ".json" :=
            joinPaths_roundtrip d.dir c r hdd hc hr
          have hd1dir : d1.dir = d.dir := by
            rw [← hd1]
            exact getOrCreateMutex_dir d c
          have hlookJ : lookupFS fs3 (goJoin [d.dir, c, r] ++ ".json") =
              some (.file (s ++ "\n")) := by
            rw [← hFR]
            exact hlookF
          have hstat : ∃ fi, statPath fs3 (goJoin [d1.dir, c, r]) = .ok fi := by
            rw [hd1dir]
            cases hR : lookupFS fs3 (goJoin [d.dir, c, r]) with
            | some eR =>
              refine ⟨eR, ?_⟩
              unfold statPath
              rw [show osStat fs3 (goJoin [d.dir, c, r]) = .ok eR from by
                unfold osStat; rw [if_neg (by rw [herr3, hfr]; simp), hR]]
            | none =>
              refine ⟨.file (s ++ "\n"), ?_⟩
              unfold statPath
              rw [show osStat fs3 (goJoin [d.dir, c, r]) =
                  .error (.notExist (goJoin [d.dir, c, r])) from by
                unfold osStat; rw [if_neg (by rw [herr3, hfr]; simp), hR]]
              dsimp only [OsErr.isNotExist]
              rw [if_pos rfl]
              unfold osStat
              rw [if_neg (by rw [herr3, hff]; simp), hlookJ]
          obtain ⟨fi, hstat⟩ := hstat
          have hread : readFileFS fs3 (goJoin [d1.dir, c, r] ++ ".json") = .ok (s ++ "\n") := by
            rw [hd1dir]
            unfold readFileFS
            rw [if_neg (by rw [herr3, hff]; simp), hlookJ]
          rw [← hfs1]
          rw [read_ok_spec C d1 fs3 c r hc hrne fi hstat (s ++ "\n") v hread hu]

/-- Witness for C1: write the number three under a plain name into a
fresh store and read it back. -/
theorem C1_witness :
    (Driver.read natCodec
      (Driver.write natCodec ⟨"db", [], 0⟩ ⟨[("db", .dir)], []⟩ "users" "john" 3).2.1
      (Driver.write natCodec ⟨"db", [], 0⟩ ⟨[("db", .dir)], []⟩ "users" "john" 3).2.2.1
      "users" "john").1 = .ok 3 :=
  C1_write_read_roundtrip natCodec ⟨"db", [], 0⟩ ⟨[("db", .dir)], []⟩ "users" "john" 3 "3"
    (by decide) (by decide) (by decide) (by decide) (by decide) (by decide) (by decide)
    (Driver.write natCodec ⟨"db", [], 0⟩ ⟨[("db", .dir)], []⟩ "users" "john" 3).2.1
    (Driver.write natCodec ⟨"db", [], 0⟩ ⟨[("db", .dir)], []⟩ "users" "john" 3).2.2.1
    (Driver.write natCodec ⟨"db", [], 0⟩ ⟨[("db", .dir)], []⟩ "users" "john" 3).2.2.2
    (by decide)

/-- C1 counterexample: the triple with collection `c`, the nonempty
resource name consisting of one dot, and the serializable value three is
valid in the sense of the claim, and the `Write` succeeds — it stores the
document under a dot-json name — yet the subsequent `Read` cleans the dot
out of its probe path and fails with not-exist instead of returning the
value. -/
theorem C1_counterexample :
    (Driver.write natCodec ⟨"db", [], 0⟩ ⟨[("db", .dir)], []⟩ "c" "." 3).1 = none ∧
    natCodec.marshal 3 = some "3" ∧
    natCodec.unmarshal ("3" ++ "\n") = some 3 ∧
    (Driver.read natCodec
      (Driver.write natCodec ⟨"db", [], 0⟩ ⟨[("db", .dir)], []⟩ "c" "." 3).2.1
      (Driver.write natCodec ⟨"db", [], 0⟩ ⟨[("db", .dir)], []⟩ "c" "." 3).2.2.1
      "c" ".").1 = .error (.osFail (.notExist "db/c.json")) := by decide

end LiteDB
